import Mathlib

/-!
Verification development for the `nengo_viz` NetGraph component
(`src/nengo_viz/components/netgraph.py`).

The Python code is shallowly embedded:
* objects are identified by their uid strings (the identity registry
  `get_uid` is injective and stable, so an object is modelled by its uid);
* coordinates are exact rationals (client JSON numbers);
* the mutable `NetGraph` state is passed explicitly as `St`;
* Python dicts become association lists or update functions;
* code that can raise becomes `PyRes` (ok / exception, both carrying the
  state at return / raise time); while-loops become fuel-indexed
  recursion returning `Option` (`none` = fuel exhausted);
* `random.uniform(0, 1)` draws become an explicit stream
  `rng : Nat → ℚ × ℚ` consumed at an index `rix` (one pair per object);
* `save_config` (writing the config file) is modelled by a counter
  `saves` of how many times persistence was triggered, and
  `print` logging by a counter `logs`.
-/

namespace NengoViz

abbrev Coord := ℚ

/-- Per-object layout attributes held by `Config`: the `pos`, `size` and
`expanded` parameters (defaults `None`, `None`, `False` in the source). -/
structure Entry where
  pos : Option (Coord × Coord)
  size : Option (Coord × Coord)
  expanded : Bool
deriving DecidableEq, Repr

def entryDefault : Entry := ⟨none, none, false⟩

/-- A `nengo.Connection`: its session uid (`'conn_%d' % id(conn)`) and the
uids of its `pre_obj` / `post_obj` endpoints. -/
structure Conn where
  cid : String
  pre_obj : String
  post_obj : String
deriving DecidableEq, Repr

/-- A `nengo.Network` container: uid lists of its direct member ensembles,
nodes, sub-networks, and its direct connections. -/
structure NetDef where
  ensembles : List String
  nodes : List String
  networks : List String
  connections : List Conn
deriving DecidableEq, Repr

/-- The model collaborator: the root network's uid, the container structure
(`net u = some nd` iff the object named `u` is a network with members `nd`),
and the labelling collaborator `get_label`. -/
structure Model where
  root : String
  net : String → Option NetDef
  label : String → String

/-- Python exceptions that the embedded code can raise. -/
inductive Err where
  | keyError
  | indexError
  | attributeError
  | typeError
deriving DecidableEq, Repr

/-- Messages written to the client (`client.write(json.dumps(...))`). -/
inductive OutMsg where
  | objMsg (uid lbl : String) (pos size : Coord × Coord) (ty : String)
      (parent : Option String) (expanded : Option Bool)
  | connMsg (uid : String) (pre post : List String) (parent : Option String)
  | panMsg (pan : Coord × Coord)
  | zoomMsg (zoom : Coord)
deriving DecidableEq, Repr

/-- The mutable state of one `NetGraph` instance. -/
structure St where
  config : String → Entry
  to_be_expanded : List String
  uids : List String
  parents : List (String × String)
  networks_to_search : List String
  saves : Nat
  logs : Nat
  msgs : List OutMsg
  rng : Nat → Coord × Coord
  rix : Nat

/-- Result of running a piece of Python code: normal return or a raised
exception, each with the state at that moment. -/
inductive PyRes (α : Type) where
  | ok (v : α) (st : St)
  | exc (e : Err) (st : St)

/-- State of `NetGraph.__init__`: `to_be_expanded = [model]`, empty
`uids` and `parents`, `networks_to_search = [model]`. -/
def initState (m : Model) (rng : Nat → Coord × Coord) : St :=
  { config := fun _ => entryDefault
    to_be_expanded := [m.root]
    uids := []
    parents := []
    networks_to_search := [m.root]
    saves := 0
    logs := 0
    msgs := []
    rng := rng
    rix := 0 }

/-- Python dict assignment `d[k] = v` on an association list. -/
def dinsert (k v : String) (l : List (String × String)) :
    List (String × String) :=
  (k, v) :: l.filter (fun p => p.1 != k)

/-- Python dict lookup `d.get(k)` on an association list. -/
def dlookup (k : String) : List (String × String) → Option String
  | [] => none
  | (a, b) :: t => if a = k then some b else dlookup k t

/-- Python dict key insertion for `self.uids[uid] = obj` (objects are their
uids, so only key membership matters). -/
def insertUid (u : String) (l : List String) : List String :=
  if l.contains u then l else l ++ [u]

/-- One of the `for child in ...: self.parents[child_uid] = net_uid` loops
of `NetGraph.get_parents`. -/
def foldAssign (netId : String) (kids : List String)
    (p : List (String × String)) : List (String × String) :=
  kids.foldl (fun acc k => dinsert k netId acc) p

/-- State of the lazy indexing loop of `NetGraph.get_parents`: the
`self.parents` dict, the `self.networks_to_search` queue, and (as
instrumentation for stating invariants) the list of containers dequeued so
far, in dequeue order. -/
structure PState where
  parents : List (String × String)
  queue : List String
  trace : List String
deriving DecidableEq, Repr

/-- Exit of the indexing loop: the target uid became indexed, or an
exception was raised (IndexError from `pop(0)` on the empty queue, or
AttributeError if a queue element is not a network). -/
inductive LoopRes where
  | found (ps : PState)
  | err (e : Err) (ps : PState)
deriving DecidableEq, Repr

def lrPS : LoopRes → PState
  | .found ps => ps
  | .err _ ps => ps

/-- The `while uid not in self.parents:` loop of `NetGraph.get_parents`:
pop the next network off `networks_to_search` (IndexError when empty),
record every direct child's parent pointer (nodes, then ensembles, then
sub-networks, in source order), and append the sub-networks to the queue.
Fuel-indexed; `none` means the fuel ran out. -/
def getParentsLoop (m : Model) (uid : String) :
    Nat → PState → Option LoopRes
  | 0, _ => none
  | Nat.succ fuel, ps =>
    if (dlookup uid ps.parents).isSome then some (.found ps)
    else
      match ps.queue with
      | [] => some (.err .indexError ps)
      | netId :: rest =>
        match m.net netId with
        | none => some (.err .attributeError ⟨ps.parents, rest, ps.trace ++ [netId]⟩)
        | some nd =>
          let p1 := foldAssign netId nd.nodes ps.parents
          let p2 := foldAssign netId nd.ensembles p1
          let p3 := foldAssign netId nd.networks p2
          getParentsLoop m uid fuel ⟨p3, rest ++ nd.networks, ps.trace ++ [netId]⟩

/-- The `parents = [uid]; while parents[-1] in self.parents: ...` chain
walk of `NetGraph.get_parents`. -/
def chainLoop (p : List (String × String)) :
    Nat → List String → String → Option (List String)
  | 0, _, _ => none
  | Nat.succ fuel, acc, last =>
    match dlookup last p with
    | none => some acc
    | some par => chainLoop p fuel (acc ++ [par]) par

/-- `NetGraph.get_parents`: lazily index containers until `uid` appears in
`self.parents`, then walk parent pointers from `uid` upward, returning the
chain `[uid, parent, grandparent, ...]`. -/
def get_parents (m : Model) (uid : String) (fuel : Nat) (st : St) :
    Option (PyRes (List String)) :=
  match getParentsLoop m uid fuel ⟨st.parents, st.networks_to_search, []⟩ with
  | none => none
  | some (.err e ps) =>
    some (.exc e { st with parents := ps.parents, networks_to_search := ps.queue })
  | some (.found ps) =>
    match chainLoop ps.parents fuel [uid] uid with
    | none => none
    | some chain =>
      some (.ok chain { st with parents := ps.parents, networks_to_search := ps.queue })

/-- `NetGraph.save_config`: write `self.config.dumps(self.uids)` to the
config file; modelled as bumping the persistence counter. -/
def save_config (st : St) : St :=
  { st with saves := st.saves + 1 }

/-- Set `self.config[obj].pos` pointwise. -/
def setPos (obj : String) (v : Option (Coord × Coord)) (st : St) : St :=
  { st with config := fun u => if u = obj then { st.config u with pos := v } else st.config u }

/-- Set `self.config[obj].size` pointwise. -/
def setSize (obj : String) (v : Option (Coord × Coord)) (st : St) : St :=
  { st with config := fun u => if u = obj then { st.config u with size := v } else st.config u }

/-- Set `self.config[obj].expanded` pointwise. -/
def setExpanded (obj : String) (b : Bool) (st : St) : St :=
  { st with config := fun u => if u = obj then { st.config u with expanded := b } else st.config u }

/-- `NetGraph.create_object`: default the position to a fresh random pair
and the size to `(0.1, 0.1)` when unset, register the uid, and emit the
creation message (networks additionally carry their `expanded` flag). -/
def create_object (m : Model) (obj ty : String) (parent : Option String)
    (st : St) : St :=
  let pr := match (st.config obj).pos with
    | some p => (p, st)
    | none => (st.rng st.rix, { setPos obj (some (st.rng st.rix)) st with rix := st.rix + 1 })
  let pos := pr.1
  let st1 := pr.2
  let sr := match (st1.config obj).size with
    | some s2 => (s2, st1)
    | none => (((1 : ℚ)/10, (1 : ℚ)/10), setSize obj (some ((1 : ℚ)/10, (1 : ℚ)/10)) st1)
  let size := sr.1
  let st2 := sr.2
  let st3 := { st2 with uids := insertUid obj st2.uids }
  let expField : Option Bool := if ty = "net" then some ((st3.config obj).expanded) else none
  { st3 with msgs := st3.msgs ++ [.objMsg obj (m.label obj) pos size ty parent expField] }

/-- `NetGraph.create_connection`: register the connection uid, resolve the
two endpoint chains with `get_parents`, truncate each with `[:-1]`
(`List.dropLast`), and emit the connection message. -/
def create_connection (m : Model) (c : Conn) (parent : Option String)
    (fuel : Nat) (st : St) : Option (PyRes Unit) :=
  let st0 := { st with uids := insertUid c.cid st.uids }
  match get_parents m c.pre_obj fuel st0 with
  | none => none
  | some (.exc e s) => some (.exc e s)
  | some (.ok pres st1) =>
    match get_parents m c.post_obj fuel st1 with
    | none => none
    | some (.exc e s) => some (.exc e s)
    | some (.ok posts st2) =>
      some (.ok ()
        { st2 with msgs := st2.msgs ++ [.connMsg c.cid pres.dropLast posts.dropLast parent] })

/-- The `for conn in network.connections:` loop of
`NetGraph.expand_network`. -/
def foldConns (m : Model) (parent : Option String) (fuel : Nat) :
    List Conn → St → Option (PyRes Unit)
  | [], st => some (.ok () st)
  | c :: rest, st =>
    match create_connection m c parent fuel st with
    | none => none
    | some (.exc e s) => some (.exc e s)
    | some (.ok _ s) => foldConns m parent fuel rest s

/-- `NetGraph.expand_network`: emit creation messages for every direct
child (ensembles, nodes, sub-networks, in that order) and every direct
connection, then set the network's `expanded` flag.  Note that it does not
call `save_config`. -/
def expand_network (m : Model) (network : String) (fuel : Nat) (st : St) :
    Option (PyRes Unit) :=
  match m.net network with
  | none => some (.exc .attributeError st)
  | some nd =>
    let parent : Option String := if network = m.root then none else some network
    let st1 := nd.ensembles.foldl (fun s o => create_object m o "ens" parent s) st
    let st2 := nd.nodes.foldl (fun s o => create_object m o "node" parent s) st1
    let st3 := nd.networks.foldl (fun s o => create_object m o "net" parent s) st2
    match foldConns m parent fuel nd.connections st3 with
    | none => none
    | some (.exc e s) => some (.exc e s)
    | some (.ok _ s) => some (.ok () (setExpanded network true s))

/-- `NetGraph.send_pan_and_zoom`: pan defaults to `(0, 0)` and zoom to
`1.0` when the root's entry is unset. -/
def send_pan_and_zoom (m : Model) (st : St) : St :=
  let pan := ((st.config m.root).pos).getD (0, 0)
  let zoom : Coord := match (st.config m.root).size with
    | none => 1
    | some z => z.1
  { st with msgs := st.msgs ++ [.panMsg pan, .zoomMsg zoom] }

/-- `NetGraph.update_client`: one synchronization tick.  Pop the next
container off `to_be_expanded` (if any), expand it, and additionally send
pan and zoom when it is the root model. -/
def update_client (m : Model) (fuel : Nat) (st : St) : Option (PyRes Unit) :=
  match st.to_be_expanded with
  | [] => some (.ok () st)
  | network :: rest =>
    let st1 := { st with to_be_expanded := rest }
    match expand_network m network fuel st1 with
    | none => none
    | some (.exc e s) => some (.exc e s)
    | some (.ok _ s) =>
      some (.ok () (if network = m.root then send_pan_and_zoom m s else s))

/-- `NetGraph.act_expand`: look the uid up in `self.uids` (KeyError when
absent), enqueue the network, set its `expanded` flag and persist. -/
def act_expand (m : Model) (uid : String) (st : St) : PyRes Unit :=
  if st.uids.contains uid then
    save_config (setExpanded uid true
      { st with to_be_expanded := st.to_be_expanded ++ [uid] }) |> .ok ()
  else .exc .keyError st

/-- `NetGraph.act_collapse`: look the uid up (KeyError when absent), clear
its `expanded` flag and persist.  The pending-expansion queue is not
touched. -/
def act_collapse (m : Model) (uid : String) (st : St) : PyRes Unit :=
  if st.uids.contains uid then
    save_config (setExpanded uid false st) |> .ok ()
  else .exc .keyError st

/-- `NetGraph.act_pan`: set the root model's position and persist. -/
def act_pan (m : Model) (x y : Coord) (st : St) : PyRes Unit :=
  .ok () (save_config (setPos m.root (some (x, y)) st))

/-- `NetGraph.act_zoom`: set the root model's size to `(scale, scale)` and
its position to `(x, y)`, then persist. -/
def act_zoom (m : Model) (scale x y : Coord) (st : St) : PyRes Unit :=
  .ok () (save_config (setPos m.root (some (x, y)) (setSize m.root (some (scale, scale)) st)))

/-- `NetGraph.act_pos`: look the uid up (KeyError when absent), set its
position and persist. -/
def act_pos (m : Model) (uid : String) (x y : Coord) (st : St) : PyRes Unit :=
  if st.uids.contains uid then
    .ok () (save_config (setPos uid (some (x, y)) st))
  else .exc .keyError st

/-- `NetGraph.act_size`: look the uid up (KeyError when absent), set its
size and persist. -/
def act_size (m : Model) (uid : String) (width height : Coord) (st : St) : PyRes Unit :=
  if st.uids.contains uid then
    .ok () (save_config (setSize uid (some (width, height)) st))
  else .exc .keyError st

/-- A parsed inbound JSON message: the optional `act` field and the
argument fields an action may carry. -/
structure Info where
  act : Option String
  uid : Option String
  x : Option Coord
  y : Option Coord
  scale : Option Coord
  width : Option Coord
  height : Option Coord

/-- `NetGraph.message`: dispatch on `info['act']`.  A missing `act` field
is logged (`print`) and the message dropped; an unknown action name makes
`getattr(self, 'act_' + action)` raise AttributeError; a known action with
a missing argument raises TypeError from keyword unpacking. -/
def message (m : Model) (info : Info) (st : St) : PyRes Unit :=
  match info.act with
  | none => .ok () { st with logs := st.logs + 1 }
  | some a =>
    if a = "expand" then
      match info.uid with
      | some u => act_expand m u st
      | none => .exc .typeError st
    else if a = "collapse" then
      match info.uid with
      | some u => act_collapse m u st
      | none => .exc .typeError st
    else if a = "pan" then
      match info.x, info.y with
      | some x, some y => act_pan m x y st
      | _, _ => .exc .typeError st
    else if a = "zoom" then
      match info.scale, info.x, info.y with
      | some sc, some x, some y => act_zoom m sc x y st
      | _, _, _ => .exc .typeError st
    else if a = "pos" then
      match info.uid, info.x, info.y with
      | some u, some x, some y => act_pos m u x y st
      | _, _, _ => .exc .typeError st
    else if a = "size" then
      match info.uid, info.width, info.height with
      | some u, some w, some h => act_size m u w h st
      | _, _, _ => .exc .typeError st
    else .exc .attributeError st

/-!
Serialization layer (`Config.dumps` and the deserialization performed by
`NetGraph.find_config`).

Here a store is the uid-sorted list of `(uid, entry)` pairs that
`Config.dumps(self.uids)` iterates over (`sorted(uids.items())`).  Numeric
values appear as the character strings Python prints for them
(`'%s' % value`); Python 2.7 float repr is injective and `eval`-invertible,
so a float is modelled by its printed form.  An entry's kind is encoded by
the presence of the `expanded` field: `Ensemble`/`Node` entries have
`expanded = none` (no `expanded` line is written), `Network` entries have
`expanded = some b`.  `find_config` runs the stored assignment statements
with `exec`; on the assignment-statement microformat produced by `dumps`
that is exactly the restricted line interpreter `loads` below.
Text is modelled as `List Char`.
-/

abbrev Chars := List Char

/-- A serializable layout entry: coordinate values are held as their
printed character strings. -/
structure SEntry where
  pos : Option (Chars × Chars)
  size : Option (Chars × Chars)
  expanded : Option Bool
deriving DecidableEq, Repr

instance : Inhabited SEntry := ⟨⟨none, none, none⟩⟩

/-- Python `'%s' % pos` for a position or size parameter: `None` when
unset, otherwise the tuple form `(x, y)`. -/
def renderPair : Option (Chars × Chars) → Chars
  | none => "None".toList
  | some p => "(".toList ++ p.1 ++ ", ".toList ++ p.2 ++ ")".toList

/-- Python `'%s' % expanded` for the boolean `expanded` parameter. -/
def renderBool : Bool → Chars
  | true => "True".toList
  | false => "False".toList

/-- One `config[<uid>].<field>=<value>` line. -/
def cfgLine (u f v : Chars) : Chars :=
  "config[".toList ++ u ++ "].".toList ++ f ++ '=' :: v

/-- The lines `Config.dumps` writes for one object: `pos` and `size`
always, plus `expanded` for networks. -/
def entryLines (u : Chars) (e : SEntry) : List Chars :=
  let base := [cfgLine u "pos".toList (renderPair e.pos),
               cfgLine u "size".toList (renderPair e.size)]
  match e.expanded with
  | none => base
  | some b => base ++ [cfgLine u "expanded".toList (renderBool b)]

/-- `'\n'.join(lines)`. -/
def joinLines : List Chars → Chars
  | [] => []
  | [l] => l
  | l :: l2 :: ls => l ++ '\n' :: joinLines (l2 :: ls)

/-- `Config.dumps` on the uid-sorted store. -/
def dumps (store : List (Chars × SEntry)) : Chars :=
  joinLines ((store.map (fun p => entryLines p.1 p.2)).flatten)

/-- Split a text back into its lines. -/
def splitNl : Chars → List Chars
  | [] => [[]]
  | c :: rest =>
    if c = '\n' then [] :: splitNl rest
    else (c :: (splitNl rest).headI) :: (splitNl rest).tail

/-- Drop a prescribed prefix from a character list, failing when it does
not start with it. -/
def dropPrefixQ : Chars → Chars → Option Chars
  | s, [] => some s
  | [], _ :: _ => none
  | c :: s, d :: t => if d = c then dropPrefixQ s t else none

/-- Drop a prescribed suffix from a character list, failing when it does
not end with it. -/
def dropSuffixQ (s suf : Chars) : Option Chars :=
  (dropPrefixQ s.reverse suf.reverse).map List.reverse

/-- Split at the first occurrence of a character, failing when absent. -/
def splitFirst (sep : Char) : Chars → Option (Chars × Chars)
  | [] => none
  | c :: r =>
    if c = sep then some ([], r)
    else (splitFirst sep r).map (fun pr => (c :: pr.1, pr.2))

inductive Field where
  | pos
  | size
  | expanded
deriving DecidableEq, Repr

/-- One `<uid>].<field>` suffix test of the left-hand side parser: strip
the field suffix, then the closing bracket. -/
def fieldSuffix (r : Chars) (f : Chars) (fd : Field) : Option (Chars × Field) :=
  (dropSuffixQ r f).bind (fun r2 => (dropSuffixQ r2 "]".toList).map (fun u => (u, fd)))

def parseLHS (lhs : Chars) : Option (Chars × Field) :=
  (dropPrefixQ lhs "config[".toList).bind (fun r =>
    (fieldSuffix r ".expanded".toList Field.expanded).orElse (fun _ =>
      (fieldSuffix r ".size".toList Field.size).orElse (fun _ =>
        fieldSuffix r ".pos".toList Field.pos)))

/-- Parse a position/size value: `None` or a `(x, y)` tuple. -/
def parseVal (v : Chars) : Option (Option (Chars × Chars)) :=
  if v = "None".toList then some none
  else
    match v with
    | [] => none
    | c :: r =>
      if c = '(' then
        (r.getLast?).bind (fun cl =>
          if cl = ')' then
            (splitFirst ',' r.dropLast).bind (fun pr =>
              match pr.2 with
              | [] => none
              | c2 :: y => if c2 = ' ' then some (some (pr.1, y)) else none)
          else none)
      else none

/-- Parse a boolean value. -/
def parseBool (v : Chars) : Option Bool :=
  if v = "True".toList then some true
  else if v = "False".toList then some false
  else none

/-- A parsed field assignment. -/
inductive FVal where
  | fpos (v : Option (Chars × Chars))
  | fsize (v : Option (Chars × Chars))
  | fexp (b : Bool)
deriving DecidableEq, Repr

/-- Parse one assignment line. -/
def parseLine (l : Chars) : Option (Chars × FVal) :=
  (splitFirst '=' l).bind (fun pr =>
    (parseLHS pr.1).bind (fun uf =>
      match uf.2 with
      | Field.pos => (parseVal pr.2).map (fun v => (uf.1, FVal.fpos v))
      | Field.size => (parseVal pr.2).map (fun v => (uf.1, FVal.fsize v))
      | Field.expanded => (parseBool pr.2).map (fun b => (uf.1, FVal.fexp b))))

/-- Apply a parsed assignment to an entry. -/
def setField (e : SEntry) : FVal → SEntry
  | .fpos v => { e with pos := v }
  | .fsize v => { e with size := v }
  | .fexp b => { e with expanded := some b }

/-- `config[uid].field = value` against the store being rebuilt: update the
uid's entry, creating a fresh default entry at first sight. -/
def applyLine (store : List (Chars × SEntry)) (u : Chars) (fv : FVal) :
    List (Chars × SEntry) :=
  match store with
  | [] => [(u, setField ⟨none, none, none⟩ fv)]
  | (k, e) :: rest =>
    if k = u then (k, setField e fv) :: rest
    else (k, e) :: applyLine rest u fv

/-- Run the assignment lines in order over an accumulating store. -/
def loadsLines : List Chars → List (Chars × SEntry) → Option (List (Chars × SEntry))
  | [], acc => some acc
  | l :: rest, acc =>
    (parseLine l).bind (fun ufv => loadsLines rest (applyLine acc ufv.1 ufv.2))

/-- Deserialization: the semantics of `exec` of the persisted text on the
`config[...].field=value` microformat (an empty file yields an empty
store). -/
def loads (text : Chars) : Option (List (Chars × SEntry)) :=
  if text = [] then some []
  else loadsLines (splitNl text) []

/-- Strict lexicographic order on character lists (Python string `<`),
used to state that a store is in `sorted(uids.items())` order. -/
def chLt : Chars → Chars → Bool
  | [], [] => false
  | [], _ :: _ => true
  | _ :: _, [] => false
  | a :: s, b :: t => if a = b then chLt s t else decide (a < b)

/-- A printable coordinate string: Python float reprs contain no newline
and no comma. -/
def goodCoord (x : Chars) : Prop := '\n' ∉ x ∧ ',' ∉ x

def goodPairV : Option (Chars × Chars) → Prop
  | none => True
  | some p => goodCoord p.1 ∧ goodCoord p.2

def goodEntry (e : SEntry) : Prop := goodPairV e.pos ∧ goodPairV e.size

/-- A uid as printed into a config line: no newline, no equals sign. -/
def goodUid (u : Chars) : Prop := '\n' ∉ u ∧ '=' ∉ u

/-- Well-formed store: uid-sorted with distinct uids (as produced by
`sorted(uids.items())` over a dict), printable uids and values. -/
def WFStore (store : List (Chars × SEntry)) : Prop :=
  (store.map Prod.fst).Nodup ∧
  (∀ p ∈ store, goodUid p.1 ∧ goodEntry p.2) ∧
  (store.map Prod.fst).Pairwise (fun a b => chLt a b = true)

instance : DecidablePred goodCoord := fun x => by
  unfold goodCoord; infer_instance

instance : DecidablePred goodUid := fun u => by
  unfold goodUid; infer_instance

instance (v : Option (Chars × Chars)) : Decidable (goodPairV v) := by
  unfold goodPairV; cases v <;> infer_instance

instance (e : SEntry) : Decidable (goodEntry e) := by
  unfold goodEntry; infer_instance

instance (store : List (Chars × SEntry)) : Decidable (WFStore store) := by
  unfold WFStore; infer_instance

/-!
Projection helpers for stating properties of runs, and concrete models
used as counterexample and witness inputs.
-/

/-- The state after a normal (non-raising) return, if any. -/
def pyOkSt {α : Type} : PyRes α → Option St
  | .ok _ s => some s
  | .exc _ _ => none

/-- The state after one successful synchronization tick. -/
def tickRes (m : Model) (fuel : Nat) (st : St) : Option St :=
  match update_client m fuel st with
  | some (.ok _ s) => some s
  | _ => none

/-- The state after one successful `expand_network` step. -/
def expandRes (m : Model) (network : String) (fuel : Nat) (st : St) : Option St :=
  match expand_network m network fuel st with
  | some (.ok _ s) => some s
  | _ => none

/-- The two untruncated endpoint chains `create_connection` computes with
`get_parents` (before the `[:-1]`), threading state exactly as the source
does: uid registration first, then the `pre` resolution, then `post`. -/
def connChains (m : Model) (c : Conn) (fuel : Nat) (st : St) :
    Option (List String × List String) :=
  let st0 := { st with uids := insertUid c.cid st.uids }
  match get_parents m c.pre_obj fuel st0 with
  | some (.ok pres st1) =>
    match get_parents m c.post_obj fuel st1 with
    | some (.ok posts _) => some (pres, posts)
    | _ => none
  | _ => none

/-- The messages a successful `create_connection` emits. -/
def connMsgsOf (m : Model) (c : Conn) (parent : Option String) (fuel : Nat)
    (st : St) : Option (List OutMsg) :=
  match create_connection m c parent fuel st with
  | some (.ok _ s) => some (s.msgs.drop st.msgs.length)
  | _ => none

/-- The dequeue trace of a terminating run of the indexing loop. -/
def loopTrace (m : Model) (uid : String) (fuel : Nat) (ps : PState) :
    Option (List String) :=
  (getParentsLoop m uid fuel ps).map (fun r => (lrPS r).trace)

/-- The state after `act_expand` followed immediately by `act_collapse`
on the same uid (both succeeding). -/
def afterExpandCollapse (m : Model) (uid : String) (st : St) : Option St :=
  (pyOkSt (act_expand m uid st)).bind (fun s1 => pyOkSt (act_collapse m uid s1))

/-- The state after `act_expand`, `act_collapse`, and then one
synchronization tick. -/
def afterTick (m : Model) (uid : String) (fuel : Nat) (st : St) : Option St :=
  (afterExpandCollapse m uid st).bind (fun s2 => tickRes m fuel s2)

/-- Whether a message is a "create object" message carrying the given
parent uid. -/
def isChildObjMsg (p : String) : OutMsg → Bool
  | .objMsg _ _ _ _ _ par _ => par == some p
  | _ => false

/-- A fixed stream of pseudo-random draws for concrete runs. -/
def rng0 : Nat → Coord × Coord := fun _ => (1/2, 1/3)

/-- Concrete model: root `model` directly holding ensemble `e1`, node
`n1`, and one connection from `e1` to `n1`. -/
def m1 : Model :=
  { root := "model"
    net := fun s =>
      if s = "model" then some ⟨["e1"], ["n1"], [], [⟨"conn_1", "e1", "n1"⟩]⟩
      else none
    label := fun s => s }

/-- Concrete model for the indexing-queue claims: root `R` holds
sub-networks `A` and `B`; `A` is empty; `B` holds `A` again, so `A` is
reachable from two parents. -/
def m3 : Model :=
  { root := "R"
    net := fun s =>
      if s = "R" then some ⟨[], [], ["A", "B"], []⟩
      else if s = "A" then some ⟨[], [], [], []⟩
      else if s = "B" then some ⟨[], [], ["A"], []⟩
      else none
    label := fun s => s }

/-- An inbound message whose `act` field names the unsupported action
`frobnicate`. -/
def infoBogus : Info := ⟨some "frobnicate", none, none, none, none, none, none⟩

/-- The sub-network uid list a container contributes to the work queue
when dequeued (empty for a non-network). -/
def subnetsOf (m : Model) (n : String) : List String :=
  ((m.net n).map NetDef.networks).getD []

/-- How many times `c` occurs in the concatenated sub-network lists of the
containers in `t`. -/
def subnetCount (m : Model) (c : String) (t : List String) : Nat :=
  ((t.map (subnetsOf m)).flatten).count c

/-- Every object in `l` already carries a position and a size in `c`. -/
def childConfigSet (c : String → Entry) (l : List String) : Prop :=
  ∀ o ∈ l, ((c o).pos).isSome = true ∧ ((c o).size).isSome = true

/-- A model whose root `root0` directly holds exactly one ensemble `e` and
one node `n` and nothing else. -/
def ensNodeModel (e n : String) (lab : String → String) : Model :=
  { root := "root0"
    net := fun s => if s = "root0" then some ⟨[e], [n], [], []⟩ else none
    label := lab }

/-- A session state over `m3` in which the sub-network `B` is registered
and the expansion queue is empty. -/
def stW : St := { initState m3 rng0 with uids := ["B"], to_be_expanded := [] }

/-- A concrete well-formed store with a leaf entry and a network entry. -/
def storeW : List (Chars × SEntry) :=
  [("a.b".toList, ⟨some ("0.5".toList, "0.25".toList), none, none⟩),
   ("model".toList, ⟨none, some ("1.0".toList, "2.0".toList), some true⟩)]

/-- The state at the moment a computation returned or raised. -/
def pyst {α : Type} : PyRes α → St
  | .ok _ s => s
  | .exc _ s => s


/-!
Theorems.
-/

theorem get_parents_fields (m : Model) (u : String) (f : Nat) (st : St)
    (r : PyRes (List String)) (h : get_parents m u f st = some r) :
    (pyst r).msgs = st.msgs ∧ (pyst r).config = st.config ∧
    (pyst r).saves = st.saves ∧ (pyst r).uids = st.uids ∧
    (pyst r).to_be_expanded = st.to_be_expanded ∧
    (pyst r).rng = st.rng ∧ (pyst r).rix = st.rix ∧ (pyst r).logs = st.logs := by
  unfold get_parents at h
  split at h
  · exact absurd h (by simp)
  · simp only [Option.some_inj] at h
    subst h; exact ⟨rfl, rfl, rfl, rfl, rfl, rfl, rfl, rfl⟩
  · split at h
    · exact absurd h (by simp)
    · simp only [Option.some_inj] at h
      subst h; exact ⟨rfl, rfl, rfl, rfl, rfl, rfl, rfl, rfl⟩

theorem chainLoop_prefix (p : List (String × String)) :
    ∀ (f : Nat) (acc : List String) (last : String) (r : List String),
    chainLoop p f acc last = some r → ∃ t, r = acc ++ t := by
  intro f
  induction f with
  | zero => intro acc last r h; exact absurd h (by simp [chainLoop])
  | succ n ih =>
    intro acc last r h
    unfold chainLoop at h
    cases hd : dlookup last p with
    | none =>
      rw [hd] at h
      simp only [Option.some_inj] at h
      exact ⟨[], by simp [h]⟩
    | some par =>
      rw [hd] at h
      obtain ⟨t, ht⟩ := ih (acc ++ [par]) par r h
      exact ⟨par :: t, by simp [ht]⟩

theorem get_parents_head (m : Model) (u : String) (f : Nat) (st : St)
    (ch : List String) (st1 : St)
    (h : get_parents m u f st = some (.ok ch st1)) : ch.head? = some u := by
  unfold get_parents at h
  split at h
  · exact absurd h (by simp)
  · simp at h
  · next ps heq =>
    split at h
    · exact absurd h (by simp)
    · next chain hc =>
      simp only [Option.some_inj, PyRes.ok.injEq] at h
      obtain ⟨t, ht⟩ := chainLoop_prefix ps.parents f [u] u chain hc
      rw [← h.1, ht]
      simp

/-- C1 (amended): the `pre`/`post` fields of an emitted "create
connection" message are the endpoint chains computed by `get_parents`
with their final element dropped, where each chain is ordered from the
endpoint outward: its first element is the endpoint object's own uid and
its final (dropped) element is the outermost indexed ancestor — so the
emitted chain contains the endpoint's uid and omits the root, not the
other way round. -/
theorem conn_chain_drops_root (m : Model) (c : Conn) (parent : Option String)
    (fuel : Nat) (st : St) (pres posts : List String)
    (h : connChains m c fuel st = some (pres, posts)) :
    connMsgsOf m c parent fuel st =
      some [.connMsg c.cid pres.dropLast posts.dropLast parent] ∧
    pres.head? = some c.pre_obj ∧ posts.head? = some c.post_obj := by
  simp only [connChains] at h
  split at h
  · next pr st1 h1 =>
    split at h
    · next po st2 h2 =>
      simp only [Option.some_inj, Prod.mk.injEq] at h
      obtain ⟨hpr, hpo⟩ := h
      subst hpr; subst hpo
      refine ⟨?_, get_parents_head m c.pre_obj fuel _ _ st1 h1,
              get_parents_head m c.post_obj fuel st1 _ st2 h2⟩
      have hm1 := (get_parents_fields m c.pre_obj fuel _ _ h1).1
      have hm2 := (get_parents_fields m c.post_obj fuel _ _ h2).1
      simp only [pyst] at hm1 hm2
      simp only [connMsgsOf, create_connection]
      rw [h1]
      simp only [h2]
      simp [hm1, hm2, List.drop_left]
    · exact absurd h (by simp)
  · exact absurd h (by simp)

/-- C1 counterexample: in the model `m1` (ensemble `e1` connected to node
`n1`, both directly under the root `model`), the emitted `pre` chain is
`["e1"]`: it contains the endpoint's own uid (the element that was dropped
is the root `model`, not the endpoint), contradicting the claim that the
chain consists of container uids and omits the endpoint's uid. -/
theorem conn_chain_keeps_endpoint_cx :
    connMsgsOf m1 ⟨"conn_1", "e1", "n1"⟩ none 5 (initState m1 rng0) =
      some [.connMsg "conn_1" ["e1"] ["n1"] none] ∧
    connChains m1 ⟨"conn_1", "e1", "n1"⟩ 5 (initState m1 rng0) =
      some (["e1", "model"], ["n1", "model"]) := by
  exact ⟨rfl, rfl⟩

/-- Witness for `conn_chain_drops_root` at the concrete model `m1`. -/
theorem conn_chain_drops_root_wit :
    connChains m1 ⟨"conn_1", "e1", "n1"⟩ 5 (initState m1 rng0) =
      some (["e1", "model"], ["n1", "model"]) ∧
    (connMsgsOf m1 ⟨"conn_1", "e1", "n1"⟩ none 5 (initState m1 rng0) =
      some [.connMsg "conn_1" (["e1", "model"] : List String).dropLast
        (["n1", "model"] : List String).dropLast none] ∧
    (["e1", "model"] : List String).head? = some "e1" ∧
    (["n1", "model"] : List String).head? = some "n1") :=
  ⟨rfl, conn_chain_drops_root m1 ⟨"conn_1", "e1", "n1"⟩ none 5 (initState m1 rng0)
    ["e1", "model"] ["n1", "model"] rfl⟩

/-- C2 (amended): when the lazy-indexing work queue is exhausted and the
queried uid has not become indexed, `get_parents` raises IndexError (from
`pop(0)` on the empty list); it does not fall back to treating the uid as
a direct child of the root. -/
theorem get_parents_exhausted_raises (m : Model) (uid : String) (fuel : Nat)
    (st : St) (hq : st.networks_to_search = [])
    (hp : dlookup uid st.parents = none) :
    get_parents m uid (fuel + 1) st = some (.exc .indexError st) := by
  obtain ⟨cfg, tbe, us, par, nts, sv, lg, ms, rg, ri⟩ := st
  simp only at hq hp
  subst hq
  unfold get_parents getParentsLoop
  rw [hp]
  simp

/-- C2 counterexample: resolving an unindexed uid `x` in model `m1`
drains the queue and raises IndexError (the state shows the fully indexed
`parents` map and the emptied queue), instead of returning `["x"]` as a
direct child of the root. -/
theorem get_parents_exhausted_cx :
    get_parents m1 "x" 5 (initState m1 rng0) =
      some (.exc .indexError
        { initState m1 rng0 with
            parents := [("e1", "model"), ("n1", "model")]
            networks_to_search := [] }) := rfl

/-- Witness for `get_parents_exhausted_raises`. -/
theorem get_parents_exhausted_raises_wit :
    (initState m1 rng0 |>.networks_to_search) = ["model"] ∧
    ({ initState m1 rng0 with networks_to_search := [] } |>.networks_to_search) = [] ∧
    dlookup "x" (initState m1 rng0).parents = none ∧
    get_parents m1 "x" 4 { initState m1 rng0 with networks_to_search := [] } =
      some (.exc .indexError { initState m1 rng0 with networks_to_search := [] }) :=
  ⟨rfl, rfl, rfl,
    get_parents_exhausted_raises m1 "x" 3
      { initState m1 rng0 with networks_to_search := [] } rfl rfl⟩

/-- C3 (amended): a message whose `act` field names an unknown action
makes the dispatch `getattr(self, 'act_' + action)` raise AttributeError,
which propagates out of the handler with the state untouched; only a
message with no `act` field at all is logged and dropped with the session
state otherwise unchanged. -/
theorem message_unknown_action_raises (m : Model) (st : St) (a : String)
    (info1 info2 : Info) (h1 : info1.act = some a)
    (h2 : a ∉ (["expand", "collapse", "pan", "zoom", "pos", "size"] : List String))
    (h3 : info2.act = none) :
    message m info1 st = .exc .attributeError st ∧
    message m info2 st = .ok () { st with logs := st.logs + 1 } := by
  have h2' : ¬(a = "expand" ∨ a = "collapse" ∨ a = "pan" ∨ a = "zoom" ∨
      a = "pos" ∨ a = "size") := by simpa using h2
  push_neg at h2'
  obtain ⟨e1, e2, e3, e4, e5, e6⟩ := h2'
  constructor
  · simp [message, h1, e1, e2, e3, e4, e5, e6]
  · simp [message, h3]

/-- C3 counterexample: handling a message with the unknown action name
`frobnicate` raises AttributeError (it does not return normally with the
message logged and dropped). -/
theorem message_unknown_action_cx :
    message m1 infoBogus (initState m1 rng0) =
      .exc .attributeError (initState m1 rng0) := rfl

/-- Witness for `message_unknown_action_raises`. -/
theorem message_unknown_action_raises_wit :
    (infoBogus.act = some "frobnicate" ∧
     "frobnicate" ∉ (["expand", "collapse", "pan", "zoom", "pos", "size"] : List String) ∧
     (Info.mk none none none none none none none).act = none) ∧
    (message m1 infoBogus (initState m1 rng0) = .exc .attributeError (initState m1 rng0) ∧
     message m1 (Info.mk none none none none none none none) (initState m1 rng0) =
       .ok () { initState m1 rng0 with logs := (initState m1 rng0).logs + 1 }) :=
  ⟨⟨rfl, by decide, rfl⟩,
   message_unknown_action_raises m1 (initState m1 rng0) "frobnicate" infoBogus
     (Info.mk none none none none none none none) rfl (by decide) rfl⟩

/-- C6 (confirmed): every uid-carrying inbound action handler (`expand`,
`collapse`, `pos`, `size`) looks the uid up in `self.uids` first; on an
unregistered uid it raises KeyError (the spec's `ObjectNotFound`) with the
state returned exactly as it was — nothing mutated, nothing enqueued, no
persistence triggered. -/
theorem unknown_uid_actions_noop (m : Model) (uid : String) (st : St)
    (x y w hgt : Coord) (h : st.uids.contains uid = false) :
    act_expand m uid st = .exc .keyError st ∧
    act_collapse m uid st = .exc .keyError st ∧
    act_pos m uid x y st = .exc .keyError st ∧
    act_size m uid w hgt st = .exc .keyError st := by
  have h' : uid ∉ st.uids := by simpa using h
  refine ⟨?_, ?_, ?_, ?_⟩ <;> simp [act_expand, act_collapse, act_pos, act_size, h, h']

/-- Witness for `unknown_uid_actions_noop`. -/
theorem unknown_uid_actions_noop_wit :
    (initState m1 rng0).uids.contains "ghost" = false ∧
    (act_expand m1 "ghost" (initState m1 rng0) = .exc .keyError (initState m1 rng0) ∧
     act_collapse m1 "ghost" (initState m1 rng0) = .exc .keyError (initState m1 rng0) ∧
     act_pos m1 "ghost" 1 2 (initState m1 rng0) = .exc .keyError (initState m1 rng0) ∧
     act_size m1 "ghost" 3 4 (initState m1 rng0) = .exc .keyError (initState m1 rng0)) :=
  ⟨rfl, unknown_uid_actions_noop m1 "ghost" (initState m1 rng0) 1 2 3 4 rfl⟩

theorem create_object_frame (m : Model) (o ty : String) (par : Option String)
    (s : St) :
    (create_object m o ty par s).saves = s.saves ∧
    (create_object m o ty par s).logs = s.logs ∧
    (create_object m o ty par s).to_be_expanded = s.to_be_expanded ∧
    (create_object m o ty par s).parents = s.parents ∧
    (create_object m o ty par s).networks_to_search = s.networks_to_search := by
  unfold create_object
  cases hp : (s.config o).pos <;> cases hs : (s.config o).size <;>
    simp [hp, hs, setPos, setSize]

theorem foldl_create_frame (m : Model) (ty : String) (par : Option String) :
    ∀ (l : List String) (s : St),
    ((l.foldl (fun a o => create_object m o ty par a) s).saves = s.saves ∧
     (l.foldl (fun a o => create_object m o ty par a) s).logs = s.logs ∧
     (l.foldl (fun a o => create_object m o ty par a) s).to_be_expanded = s.to_be_expanded ∧
     (l.foldl (fun a o => create_object m o ty par a) s).parents = s.parents ∧
     (l.foldl (fun a o => create_object m o ty par a) s).networks_to_search
       = s.networks_to_search) := by
  intro l
  induction l with
  | nil => intro s; exact ⟨rfl, rfl, rfl, rfl, rfl⟩
  | cons hd tl ih =>
    intro s
    have hh := create_object_frame m hd ty par s
    have ht := ih (create_object m hd ty par s)
    simp only [List.foldl_cons]
    exact ⟨ht.1.trans hh.1, ht.2.1.trans hh.2.1, ht.2.2.1.trans hh.2.2.1,
           ht.2.2.2.1.trans hh.2.2.2.1, ht.2.2.2.2.trans hh.2.2.2.2⟩

theorem create_connection_frame (m : Model) (c : Conn) (par : Option String)
    (fuel : Nat) (st : St) (v : Unit) (s : St)
    (h : create_connection m c par fuel st = some (.ok v s)) :
    s.saves = st.saves ∧ s.config = st.config ∧
    s.to_be_expanded = st.to_be_expanded ∧ s.logs = st.logs := by
  simp only [create_connection] at h
  split at h
  · exact absurd h (by simp)
  · exact absurd h (by simp)
  · next pres st1 h1 =>
    split at h
    · exact absurd h (by simp)
    · exact absurd h (by simp)
    · next posts st2 h2 =>
      simp only [Option.some_inj, PyRes.ok.injEq] at h
      have f1 := get_parents_fields m c.pre_obj fuel _ _ h1
      have f2 := get_parents_fields m c.post_obj fuel _ _ h2
      simp only [pyst] at f1 f2
      rw [← h.2]
      obtain ⟨f1m, f1c, f1s, f1u, f1t, f1r, f1x, f1l⟩ := f1
      obtain ⟨f2m, f2c, f2s, f2u, f2t, f2r, f2x, f2l⟩ := f2
      exact ⟨by simp [f2s, f1s], by simp [f2c, f1c], by simp [f2t, f1t],
             by simp [f2l, f1l]⟩

theorem foldConns_frame (m : Model) (par : Option String) (fuel : Nat) :
    ∀ (l : List Conn) (st : St) (v : Unit) (s : St),
    foldConns m par fuel l st = some (.ok v s) →
    s.saves = st.saves ∧ s.config = st.config ∧
    s.to_be_expanded = st.to_be_expanded ∧ s.logs = st.logs := by
  intro l
  induction l with
  | nil =>
    intro st v s h
    simp only [foldConns, Option.some_inj, PyRes.ok.injEq] at h
    rw [← h.2]
    exact ⟨rfl, rfl, rfl, rfl⟩
  | cons c rest ih =>
    intro st v s h
    simp only [foldConns] at h
    split at h
    · exact absurd h (by simp)
    · exact absurd h (by simp)
    · next v1 s1 h1 =>
      have hc := create_connection_frame m c par fuel st v1 s1 h1
      have hr := ih s1 v s h
      exact ⟨hr.1.trans hc.1, hr.2.1.trans hc.2.1, hr.2.2.1.trans hc.2.2.1,
             hr.2.2.2.trans hc.2.2.2⟩

/-- C5 (amended): a successful expansion step leaves the container's
`expanded` flag set to true, but the expansion step itself never triggers
persistence: the number of `save_config` calls is unchanged (`save_config`
is called only by the inbound-action handlers). -/
theorem expand_sets_flag_no_persist (m : Model) (net : String) (fuel : Nat)
    (st : St) (h : (expandRes m net fuel st).isSome) :
    (expandRes m net fuel st).map St.saves = some st.saves ∧
    (expandRes m net fuel st).map (fun s => (s.config net).expanded) = some true := by
  cases hx : expand_network m net fuel st with
  | none => exact absurd h (by simp [expandRes, hx])
  | some r =>
    cases r with
    | exc e s => exact absurd h (by simp [expandRes, hx])
    | ok v s =>
      have hres : expandRes m net fuel st = some s := by simp [expandRes, hx]
      rw [hres]
      simp only [Option.map_some', Option.some_inj]
      simp only [expand_network] at hx
      split at hx
      · exact absurd hx (by simp)
      · next nd hnet =>
        split at hx
        · exact absurd hx (by simp)
        · exact absurd hx (by simp)
        · next v1 s1 h1 =>
          simp only [Option.some_inj, PyRes.ok.injEq] at hx
          have hfc := foldConns_frame _ _ _ _ _ _ _ h1
          set par := (if net = m.root then none else some net) with hpar
          set stE := List.foldl (fun a o => create_object m o "ens" par a) st nd.ensembles with hE
          set stN := List.foldl (fun a o => create_object m o "node" par a) stE nd.nodes with hN
          set stT := List.foldl (fun a o => create_object m o "net" par a) stN nd.networks with hT
          have hens := foldl_create_frame m "ens" par nd.ensembles st
          have hnodes := foldl_create_frame m "node" par nd.nodes stE
          have hnets := foldl_create_frame m "net" par nd.networks stN
          constructor
          · rw [← hx.2]
            simp only [setExpanded]
            rw [hfc.1, hnets.1, hnodes.1, hens.1]
          · rw [← hx.2]
            simp [setExpanded]

/-- C5 counterexample: the first expansion step of the model `m1`
(containing an ensemble, a node and a connection) ends with the root's
`expanded` flag true but the persistence counter still at 0 — contradicting
the claim that the expansion step flushes the store. -/
theorem expand_no_persist_cx :
    (expandRes m1 "model" 5 (initState m1 rng0)).map St.saves = some 0 ∧
    (expandRes m1 "model" 5 (initState m1 rng0)).map
      (fun s => (s.config "model").expanded) = some true := ⟨rfl, rfl⟩

/-- Witness for `expand_sets_flag_no_persist`. -/
theorem expand_sets_flag_no_persist_wit :
    (expandRes m1 "model" 5 (initState m1 rng0)).isSome = true ∧
    ((expandRes m1 "model" 5 (initState m1 rng0)).map St.saves =
       some (initState m1 rng0).saves ∧
     (expandRes m1 "model" 5 (initState m1 rng0)).map
       (fun s => (s.config "model").expanded) = some true) :=
  ⟨rfl, expand_sets_flag_no_persist m1 "model" 5 (initState m1 rng0) rfl⟩

theorem subnetCount_append_one (m : Model) (c : String) (t : List String)
    (n : String) :
    subnetCount m c (t ++ [n]) = subnetCount m c t + (subnetsOf m n).count c := by
  simp [subnetCount, List.count_append]

/-- C4 (amended): the indexing work queue enqueues every sub-network of a
dequeued container unconditionally (there is no visited set), so each
container is dequeued once per enqueue: along any terminating run of the
loop, the number of occurrences of a container among dequeued-plus-pending
entries equals its occurrences in the starting trace-plus-queue plus its
occurrences in the sub-network lists of the containers dequeued by the
run.  Consequently a container listed by two dequeued parents is dequeued
twice, and a structure with back-references makes the loop re-enqueue a
container it already processed (and never terminate). -/
theorem index_queue_count_invariant (m : Model) (uid : String) :
    ∀ (fuel : Nat) (ps : PState) (res : LoopRes) (c : String),
    getParentsLoop m uid fuel ps = some res →
    ((lrPS res).trace.count c + (lrPS res).queue.count c) + subnetCount m c ps.trace
      = (ps.trace.count c + ps.queue.count c) + subnetCount m c (lrPS res).trace := by
  intro fuel
  induction fuel with
  | zero => intro ps res c h; exact absurd h (by simp [getParentsLoop])
  | succ n ih =>
    intro ps res c h
    unfold getParentsLoop at h
    split at h
    · simp only [Option.some_inj] at h
      subst h; simp [lrPS]
    · split at h
      · simp only [Option.some_inj] at h
        subst h; simp [lrPS]
      · next netId rest hq =>
        split at h
        · next hnet =>
          simp only [Option.some_inj] at h
          subst h
          simp only [lrPS, hq, subnetCount_append_one, List.count_append,
            List.count_cons, subnetsOf, hnet]
          simp
          omega
        · next nd hnet =>
          have hih := ih _ res c h
          simp only [subnetCount_append_one, List.count_append, List.count_cons,
            List.count_singleton', List.count_nil, subnetsOf, hnet,
            Option.map_some', Option.getD_some] at hih
          simp only [hq, List.count_cons, List.count_singleton', List.count_append,
            List.count_nil]
          omega

/-- C4 counterexample: in model `m3` (root `R` holds `A` and `B`; `B`
holds `A` again), resolving an unindexed uid dequeues the trace
`[R, A, B, A]`: container `A` is processed twice, and its second enqueue
(while `B` was processed) happened after `A` had already been dequeued —
so the queue does re-process a container, contradicting the claimed
invariant and the claimed termination on every structure. -/
theorem index_queue_reprocess_cx :
    loopTrace m3 "x" 8 ⟨[], ["R"], []⟩ = some ["R", "A", "B", "A"] ∧
    (loopTrace m3 "x" 8 ⟨[], ["R"], []⟩).map (fun t => t.count "A") = some 2 :=
  ⟨rfl, rfl⟩

/-- Witness for `index_queue_count_invariant` on the run of `m3` that
dequeues `A` twice. -/
theorem index_queue_count_invariant_wit :
    getParentsLoop m3 "x" 8 ⟨[], ["R"], []⟩ =
      some (.err .indexError ⟨[("A", "B"), ("B", "R")], [], ["R", "A", "B", "A"]⟩) ∧
    ((lrPS (.err .indexError ⟨[("A", "B"), ("B", "R")], [], ["R", "A", "B", "A"]⟩)).trace.count "A"
        + (lrPS (.err .indexError ⟨[("A", "B"), ("B", "R")], [], ["R", "A", "B", "A"]⟩)).queue.count "A")
      + subnetCount m3 "A" (PState.mk [] ["R"] []).trace
      = ((PState.mk [] ["R"] []).trace.count "A" + (PState.mk [] ["R"] []).queue.count "A")
        + subnetCount m3 "A"
            (lrPS (.err .indexError ⟨[("A", "B"), ("B", "R")], [], ["R", "A", "B", "A"]⟩)).trace :=
  ⟨rfl, index_queue_count_invariant m3 "x" 8 ⟨[], ["R"], []⟩
    (.err .indexError ⟨[("A", "B"), ("B", "R")], [], ["R", "A", "B", "A"]⟩) "A" rfl⟩

theorem setPos_config (o : String) (v : Option (Coord × Coord)) (st : St)
    (u : String) :
    (setPos o v st).config u = if u = o then { st.config u with pos := v } else st.config u := rfl

theorem setSize_config (o : String) (v : Option (Coord × Coord)) (st : St)
    (u : String) :
    (setSize o v st).config u = if u = o then { st.config u with size := v } else st.config u := rfl

theorem setExpanded_config (o : String) (b : Bool) (st : St) (u : String) :
    (setExpanded o b st).config u = if u = o then { st.config u with expanded := b } else st.config u := rfl

theorem setExpanded_pos (n : String) (b : Bool) (s : St) (o : String) :
    ((setExpanded n b s).config o).pos = (s.config o).pos := by
  rw [setExpanded_config]; split <;> rfl

theorem setExpanded_size (n : String) (b : Bool) (s : St) (o : String) :
    ((setExpanded n b s).config o).size = (s.config o).size := by
  rw [setExpanded_config]; split <;> rfl

theorem entry_set_expanded_true (e : Entry) (h : e.expanded = true) :
    { e with expanded := true } = e := by
  obtain ⟨p, s2, ex⟩ := e
  simp only at h
  subst h
  rfl

theorem create_object_config_noop (m : Model) (obj ty : String)
    (par : Option String) (s : St) (hp : ((s.config obj).pos).isSome = true)
    (hs2 : ((s.config obj).size).isSome = true) (u : String) :
    (create_object m obj ty par s).config u = s.config u := by
  obtain ⟨p, hp⟩ := Option.isSome_iff_exists.mp hp
  obtain ⟨q, hq⟩ := Option.isSome_iff_exists.mp hs2
  simp [create_object, hp, hq]

theorem create_object_config_set (m : Model) (obj ty : String)
    (par : Option String) (s : St) :
    (((create_object m obj ty par s).config obj).pos).isSome = true ∧
    (((create_object m obj ty par s).config obj).size).isSome = true := by
  cases hp : (s.config obj).pos <;> cases hsz : (s.config obj).size <;>
    constructor <;> simp [create_object, setPos, setSize, hp, hsz]

theorem create_object_config_mono (m : Model) (obj ty : String)
    (par : Option String) (s : St) (u : String) :
    (((s.config u).pos).isSome = true →
      (((create_object m obj ty par s).config u).pos).isSome = true) ∧
    (((s.config u).size).isSome = true →
      (((create_object m obj ty par s).config u).size).isSome = true) := by
  by_cases hu : u = obj
  · subst hu
    have hset := create_object_config_set m u ty par s
    exact ⟨fun _ => hset.1, fun _ => hset.2⟩
  · cases hp : (s.config obj).pos <;> cases hsz : (s.config obj).size <;>
      constructor <;> intro hh <;>
      simpa [create_object, setPos, setSize, hp, hsz, hu] using hh

theorem foldl_create_config_noop (m : Model) (ty : String)
    (par : Option String) :
    ∀ (l : List String) (s : St), childConfigSet s.config l →
    ∀ u, (l.foldl (fun a o => create_object m o ty par a) s).config u = s.config u := by
  intro l
  induction l with
  | nil => intro s _ u; rfl
  | cons o tl ih =>
    intro s hset u
    have ho := hset o (by simp)
    have hno := fun w => create_object_config_noop m o ty par s ho.1 ho.2 w
    have htl : childConfigSet (create_object m o ty par s).config tl := by
      intro x hx
      rw [hno x]
      exact hset x (by simp [hx])
    simp only [List.foldl_cons]
    rw [ih _ htl u, hno u]

theorem foldl_create_config_mono (m : Model) (ty : String)
    (par : Option String) :
    ∀ (l : List String) (s : St) (u : String),
    (((s.config u).pos).isSome = true →
      (((l.foldl (fun a o => create_object m o ty par a) s).config u).pos).isSome = true) ∧
    (((s.config u).size).isSome = true →
      (((l.foldl (fun a o => create_object m o ty par a) s).config u).size).isSome = true) := by
  intro l
  induction l with
  | nil => intro s u; exact ⟨id, id⟩
  | cons o tl ih =>
    intro s u
    have h1 := create_object_config_mono m o ty par s u
    have h2 := ih (create_object m o ty par s) u
    simp only [List.foldl_cons]
    exact ⟨fun hh => h2.1 (h1.1 hh), fun hh => h2.2 (h1.2 hh)⟩

theorem foldl_create_config_set (m : Model) (ty : String)
    (par : Option String) :
    ∀ (l : List String) (s : St),
    childConfigSet ((l.foldl (fun a o => create_object m o ty par a) s).config) l := by
  intro l
  induction l with
  | nil => intro s o ho; exact absurd ho (by simp)
  | cons o tl ih =>
    intro s x hx
    simp only [List.foldl_cons]
    rcases List.mem_cons.mp hx with hx0 | hxtl
    · subst hx0
      have hset := create_object_config_set m x ty par s
      have hmono := foldl_create_config_mono m ty par tl (create_object m x ty par s) x
      exact ⟨hmono.1 hset.1, hmono.2 hset.2⟩
    · exact ih (create_object m o ty par s) x hxtl

theorem expandRes_inv (m : Model) (net : String) (fuel : Nat) (st : St)
    (s : St) (h : expandRes m net fuel st = some s) :
    expand_network m net fuel st = some (.ok () s) := by
  unfold expandRes at h
  split at h
  · next v s1 heq =>
    simp only [Option.some_inj] at h
    subst h
    cases v
    exact heq
  · exact absurd h (by simp)

theorem expand_network_ok_struct (m : Model) (net : String) (fuel : Nat)
    (st : St) (s : St) (nd : NetDef) (hnet : m.net net = some nd)
    (h : expand_network m net fuel st = some (.ok () s)) :
    ∃ sc, foldConns m (if net = m.root then none else some net) fuel nd.connections
        (nd.networks.foldl (fun a o => create_object m o "net" (if net = m.root then none else some net) a)
          (nd.nodes.foldl (fun a o => create_object m o "node" (if net = m.root then none else some net) a)
            (nd.ensembles.foldl (fun a o => create_object m o "ens" (if net = m.root then none else some net) a) st)))
        = some (.ok () sc) ∧ s = setExpanded net true sc := by
  simp only [expand_network, hnet] at h
  split at h
  · exact absurd h (by simp)
  · exact absurd h (by simp)
  · next v1 s1 h1 =>
    simp only [Option.some_inj, PyRes.ok.injEq, true_and] at h
    cases v1
    exact ⟨s1, h1, h.symm⟩

theorem childConfigSet_foldl_mono (m : Model) (ty : String)
    (par : Option String) (l2 : List String) (s : St) (l : List String)
    (h : childConfigSet s.config l) :
    childConfigSet ((l2.foldl (fun a o => create_object m o ty par a) s).config) l :=
  fun o ho => ⟨(foldl_create_config_mono m ty par l2 s o).1 (h o ho).1,
               (foldl_create_config_mono m ty par l2 s o).2 (h o ho).2⟩

theorem childConfigSet_setExpanded (n : String) (b : Bool) (s : St)
    (l : List String) (h : childConfigSet s.config l) :
    childConfigSet ((setExpanded n b s).config) l :=
  fun o ho => ⟨by rw [setExpanded_pos]; exact (h o ho).1,
               by rw [setExpanded_size]; exact (h o ho).2⟩

theorem childConfigSet_ptwise (c1 c2 : String → Entry) (l : List String)
    (hc : ∀ o, c1 o = c2 o) (h : childConfigSet c2 l) : childConfigSet c1 l :=
  fun o ho => by rw [hc o]; exact h o ho

/-- C8 (confirmed): expansion is idempotent on the layout store — running
`expand_network` on the same container a second time leaves every entry of
the config exactly as it was after the first run: positions set by the
first run are reused rather than re-randomized, sizes are unchanged, and
no `expanded` flag of any other object is touched. -/
theorem expand_idempotent_config (m : Model) (net : String) (fuel : Nat)
    (st : St) (u : String)
    (h : (((expandRes m net fuel st).bind (expandRes m net fuel)).isSome) = true) :
    ((expandRes m net fuel st).bind (expandRes m net fuel)).map (fun s => s.config u)
      = (expandRes m net fuel st).map (fun s => s.config u) := by
  cases hx1 : expandRes m net fuel st with
  | none => rw [hx1] at h; simp at h
  | some s1 =>
    rw [hx1] at h
    simp only [Option.some_bind] at h ⊢
    cases hx2 : expandRes m net fuel s1 with
    | none => rw [hx2] at h; simp at h
    | some s2 =>
      simp only [Option.map_some', Option.some_inj]
      have e1 := expandRes_inv m net fuel st s1 hx1
      have e2 := expandRes_inv m net fuel s1 s2 hx2
      cases hnet : m.net net with
      | none =>
        simp only [expand_network, hnet] at e1
        exact absurd e1 (by simp)
      | some nd =>
        obtain ⟨sc, hfc1, hs1⟩ := expand_network_ok_struct m net fuel st s1 nd hnet e1
        obtain ⟨sc2, hfc2, hs2⟩ := expand_network_ok_struct m net fuel s1 s2 nd hnet e2
        set par := (if net = m.root then none else some net) with hpar
        set stE := nd.ensembles.foldl (fun a o => create_object m o "ens" par a) st with hE
        set stN := nd.nodes.foldl (fun a o => create_object m o "node" par a) stE with hN
        set stT := nd.networks.foldl (fun a o => create_object m o "net" par a) stN with hT
        have hfr1 := foldConns_frame _ _ _ _ _ _ _ hfc1
        have hscT : sc.config = stT.config := hfr1.2.1
        have hensT : childConfigSet stT.config nd.ensembles := by
          rw [hT]
          exact childConfigSet_foldl_mono m "net" par nd.networks stN _ (by
            rw [hN]
            exact childConfigSet_foldl_mono m "node" par nd.nodes stE _
              (foldl_create_config_set m "ens" par nd.ensembles st))
        have hnodesT : childConfigSet stT.config nd.nodes := by
          rw [hT]
          exact childConfigSet_foldl_mono m "net" par nd.networks stN _
            (foldl_create_config_set m "node" par nd.nodes stE)
        have hnetsT : childConfigSet stT.config nd.networks :=
          foldl_create_config_set m "net" par nd.networks stN
        have hs1ens : childConfigSet s1.config nd.ensembles := by
          rw [hs1]
          exact childConfigSet_setExpanded net true sc nd.ensembles
            (childConfigSet_ptwise sc.config stT.config _ (fun o => by rw [hscT]) hensT)
        have hs1nodes : childConfigSet s1.config nd.nodes := by
          rw [hs1]
          exact childConfigSet_setExpanded net true sc nd.nodes
            (childConfigSet_ptwise sc.config stT.config _ (fun o => by rw [hscT]) hnodesT)
        have hs1nets : childConfigSet s1.config nd.networks := by
          rw [hs1]
          exact childConfigSet_setExpanded net true sc nd.networks
            (childConfigSet_ptwise sc.config stT.config _ (fun o => by rw [hscT]) hnetsT)
        set stE2 := nd.ensembles.foldl (fun a o => create_object m o "ens" par a) s1 with hE2
        set stN2 := nd.nodes.foldl (fun a o => create_object m o "node" par a) stE2 with hN2
        set stT2 := nd.networks.foldl (fun a o => create_object m o "net" par a) stN2 with hT2
        have hE2eq : ∀ w, stE2.config w = s1.config w := by
          rw [hE2]
          exact foldl_create_config_noop m "ens" par nd.ensembles s1 hs1ens
        have hN2eq : ∀ w, stN2.config w = s1.config w := by
          rw [hN2]
          intro w
          rw [foldl_create_config_noop m "node" par nd.nodes stE2
            (childConfigSet_ptwise stE2.config s1.config _ hE2eq hs1nodes) w]
          exact hE2eq w
        have hT2eq : ∀ w, stT2.config w = s1.config w := by
          rw [hT2]
          intro w
          rw [foldl_create_config_noop m "net" par nd.networks stN2
            (childConfigSet_ptwise stN2.config s1.config _ hN2eq hs1nets) w]
          exact hN2eq w
        have hfr2 := foldConns_frame _ _ _ _ _ _ _ hfc2
        have hsc2 : ∀ w, sc2.config w = s1.config w := by
          intro w
          rw [hfr2.2.1]
          exact hT2eq w
        rw [hs2, setExpanded_config]
        by_cases hu : u = net
        · rw [if_pos hu, hsc2 u, hu]
          apply entry_set_expanded_true
          rw [hs1, setExpanded_config, if_pos rfl]
        · rw [if_neg hu]
          exact hsc2 u

/-- Witness for `expand_idempotent_config`: expanding `m1`'s root twice. -/
theorem expand_idempotent_config_wit :
    (((expandRes m1 "model" 5 (initState m1 rng0)).bind (expandRes m1 "model" 5)).isSome) = true ∧
    ((expandRes m1 "model" 5 (initState m1 rng0)).bind (expandRes m1 "model" 5)).map
        (fun s => s.config "e1")
      = (expandRes m1 "model" 5 (initState m1 rng0)).map (fun s => s.config "e1") :=
  ⟨rfl, expand_idempotent_config m1 "model" 5 (initState m1 rng0) "e1" rfl⟩

/-- C9 (confirmed): on a fresh session whose root holds exactly one
ensemble `e` and one node `n` with no stored layout, the first
synchronization tick emits exactly two "create object" messages — `e`'s
first, then `n`'s — followed by the pan and zoom messages with the
defaults `pan = (0,0)` and `zoom = 1.0`; both objects carry the default
size `(0.1, 0.1)` and a freshly drawn position, which lies in `[0,1)²`
because `random.uniform(0,1)` draws lie in `[0,1)`. -/
theorem first_tick_two_objects_pan_zoom (e n : String) (lab : String → String)
    (rng : Nat → Coord × Coord) (fuel : Nat)
    (hen : e ≠ n) (her : e ≠ "root0") (hnr : n ≠ "root0")
    (h0a : 0 ≤ (rng 0).1) (h0b : (rng 0).1 < 1)
    (h0c : 0 ≤ (rng 0).2) (h0d : (rng 0).2 < 1)
    (h1a : 0 ≤ (rng 1).1) (h1b : (rng 1).1 < 1)
    (h1c : 0 ≤ (rng 1).2) (h1d : (rng 1).2 < 1) :
    (tickRes (ensNodeModel e n lab) fuel (initState (ensNodeModel e n lab) rng)).map St.msgs =
      some [.objMsg e (lab e) (rng 0) ((1 : ℚ)/10, (1 : ℚ)/10) "ens" none none,
            .objMsg n (lab n) (rng 1) ((1 : ℚ)/10, (1 : ℚ)/10) "node" none none,
            .panMsg (0, 0), .zoomMsg 1] ∧
    (0 ≤ (rng 0).1 ∧ (rng 0).1 < 1 ∧ 0 ≤ (rng 0).2 ∧ (rng 0).2 < 1) ∧
    (0 ≤ (rng 1).1 ∧ (rng 1).1 < 1 ∧ 0 ≤ (rng 1).2 ∧ (rng 1).2 < 1) := by
  refine ⟨?_, ⟨h0a, h0b, h0c, h0d⟩, ⟨h1a, h1b, h1c, h1d⟩⟩
  have hne : n ≠ e := hen.symm
  have hre : "root0" ≠ e := fun hh => her hh.symm
  have hrn : "root0" ≠ n := fun hh => hnr hh.symm
  simp [tickRes, update_client, expand_network, ensNodeModel, initState,
    create_object, foldConns, setPos, setSize, setExpanded, send_pan_and_zoom,
    entryDefault, insertUid, hen, her, hnr, hne, hre, hrn]

/-- Witness for `first_tick_two_objects_pan_zoom`. -/
theorem first_tick_two_objects_pan_zoom_wit :
    (("E" : String) ≠ "N" ∧ ("E" : String) ≠ "root0" ∧ ("N" : String) ≠ "root0" ∧
     0 ≤ (rng0 0).1 ∧ (rng0 0).1 < 1 ∧ 0 ≤ (rng0 0).2 ∧ (rng0 0).2 < 1 ∧
     0 ≤ (rng0 1).1 ∧ (rng0 1).1 < 1 ∧ 0 ≤ (rng0 1).2 ∧ (rng0 1).2 < 1) ∧
    ((tickRes (ensNodeModel "E" "N" id) 3 (initState (ensNodeModel "E" "N" id) rng0)).map St.msgs =
      some [.objMsg "E" (id "E") (rng0 0) ((1 : ℚ)/10, (1 : ℚ)/10) "ens" none none,
            .objMsg "N" (id "N") (rng0 1) ((1 : ℚ)/10, (1 : ℚ)/10) "node" none none,
            .panMsg (0, 0), .zoomMsg 1] ∧
     (0 ≤ (rng0 0).1 ∧ (rng0 0).1 < 1 ∧ 0 ≤ (rng0 0).2 ∧ (rng0 0).2 < 1) ∧
     (0 ≤ (rng0 1).1 ∧ (rng0 1).1 < 1 ∧ 0 ≤ (rng0 1).2 ∧ (rng0 1).2 < 1)) :=
  ⟨⟨by decide, by decide, by decide, by norm_num [rng0], by norm_num [rng0],
     by norm_num [rng0], by norm_num [rng0], by norm_num [rng0], by norm_num [rng0],
     by norm_num [rng0], by norm_num [rng0]⟩,
   first_tick_two_objects_pan_zoom "E" "N" id rng0 3
     (by decide) (by decide) (by decide)
     (by norm_num [rng0]) (by norm_num [rng0]) (by norm_num [rng0]) (by norm_num [rng0])
     (by norm_num [rng0]) (by norm_num [rng0]) (by norm_num [rng0]) (by norm_num [rng0])⟩

theorem create_object_msgs (m : Model) (o ty : String) (par : Option String)
    (s : St) :
    ∃ ps sz ef, (create_object m o ty par s).msgs =
      s.msgs ++ [.objMsg o (m.label o) ps sz ty par ef] := by
  cases hp : (s.config o).pos with
  | none =>
    cases hsz : (s.config o).size with
    | none =>
      exact ⟨s.rng s.rix, ((1 : ℚ)/10, (1 : ℚ)/10),
        if ty = "net" then some ((s.config o).expanded) else none,
        by simp [create_object, setPos, setSize, hp, hsz]⟩
    | some w =>
      exact ⟨s.rng s.rix, w,
        if ty = "net" then some ((s.config o).expanded) else none,
        by simp [create_object, setPos, setSize, hp, hsz]⟩
  | some v =>
    cases hsz : (s.config o).size with
    | none =>
      exact ⟨v, ((1 : ℚ)/10, (1 : ℚ)/10),
        if ty = "net" then some ((s.config o).expanded) else none,
        by simp [create_object, setPos, setSize, hp, hsz]⟩
    | some w =>
      exact ⟨v, w,
        if ty = "net" then some ((s.config o).expanded) else none,
        by simp [create_object, setPos, setSize, hp, hsz]⟩

theorem foldl_create_msgs (m : Model) (ty : String) (par : Option String) :
    ∀ (l : List String) (s : St),
    ∃ ms, (l.foldl (fun a o => create_object m o ty par a) s).msgs = s.msgs ++ ms ∧
      ms.length = l.length ∧
      ∀ x ∈ ms, ∃ o ps sz ef, x = OutMsg.objMsg o (m.label o) ps sz ty par ef := by
  intro l
  induction l with
  | nil => intro s; exact ⟨[], by simp, rfl, by simp⟩
  | cons o tl ih =>
    intro s
    obtain ⟨ps, sz, ef, hmsg⟩ := create_object_msgs m o ty par s
    obtain ⟨ms, hms, hlen, hall⟩ := ih (create_object m o ty par s)
    refine ⟨OutMsg.objMsg o (m.label o) ps sz ty par ef :: ms, ?_, by simp [hlen], ?_⟩
    · simp only [List.foldl_cons, hms, hmsg, List.append_assoc, List.singleton_append]
    · intro x hx
      rcases List.mem_cons.mp hx with hx0 | hxs
      · exact ⟨o, ps, sz, ef, hx0⟩
      · exact hall x hxs

/-- C10 (confirmed): `act_collapse` on a registered container uid only
clears that container's `expanded` flag and persists; it does not remove
the container from the pending-expansion queue.  A container enqueued by
`act_expand` and collapsed before the next synchronization tick is
therefore still expanded on that tick: the tick emits one creation message
per child, each carrying the container as parent, and sets the container's
`expanded` flag back to true. -/
theorem collapse_keeps_queue_tick_expands (m : Model) (uid : String)
    (nd : NetDef) (st : St) (fuel : Nat)
    (hreg : st.uids.contains uid = true)
    (hnet : m.net uid = some nd)
    (hconns : nd.connections = [])
    (hroot : uid ≠ m.root)
    (hq : st.to_be_expanded = []) :
    (afterExpandCollapse m uid st).map St.to_be_expanded = some [uid] ∧
    (afterExpandCollapse m uid st).map (fun s => (s.config uid).expanded) = some false ∧
    (afterExpandCollapse m uid st).map St.saves = some (st.saves + 2) ∧
    (∀ w, w ≠ uid → (afterExpandCollapse m uid st).map (fun s => s.config w)
      = some (st.config w)) ∧
    (afterTick m uid fuel st).map (fun s => (s.config uid).expanded) = some true ∧
    (afterTick m uid fuel st).map (fun s => (s.msgs.drop st.msgs.length).length)
      = some (nd.ensembles.length + nd.nodes.length + nd.networks.length) ∧
    (afterTick m uid fuel st).map (fun s => (s.msgs.drop st.msgs.length).all (isChildObjMsg uid))
      = some true ∧
    (afterTick m uid fuel st).map St.to_be_expanded = some [] := by
  have hs1 : act_expand m uid st = .ok ()
      (save_config (setExpanded uid true { st with to_be_expanded := st.to_be_expanded ++ [uid] })) := by
    have hmem : uid ∈ st.uids := by simpa using hreg
    simp [act_expand, hreg, hmem]
  set s1 := save_config (setExpanded uid true { st with to_be_expanded := st.to_be_expanded ++ [uid] }) with hs1def
  have hu1 : s1.uids = st.uids := rfl
  have hs2 : act_collapse m uid s1 = .ok () (save_config (setExpanded uid false s1)) := by
    have hmem1 : uid ∈ s1.uids := by rw [hu1]; simpa using hreg
    simp [act_collapse, hmem1]
  set s2 := save_config (setExpanded uid false s1) with hs2def
  have haec : afterExpandCollapse m uid st = some s2 := by
    simp [afterExpandCollapse, hs1, hs2, pyOkSt]
  have hq2 : s2.to_be_expanded = [uid] := by
    show st.to_be_expanded ++ [uid] = [uid]
    rw [hq]; rfl
  have hmsgs2 : s2.msgs = st.msgs := rfl
  refine ⟨?_, ?_, ?_, ?_, ?_⟩
  · rw [haec]; simp [hq2]
  · rw [haec]
    simp only [Option.map_some', Option.some_inj]
    show ((setExpanded uid false s1).config uid).expanded = false
    rw [setExpanded_config, if_pos rfl]
  · rw [haec]; rfl
  · intro w hw
    rw [haec]
    simp only [Option.map_some', Option.some_inj]
    show (setExpanded uid false s1).config w = st.config w
    rw [setExpanded_config, if_neg hw]
    show (setExpanded uid true { st with to_be_expanded := st.to_be_expanded ++ [uid] }).config w = st.config w
    rw [setExpanded_config, if_neg hw]
  -- the tick
  obtain ⟨msE, hmsE, hlenE, hallE⟩ :=
    foldl_create_msgs m "ens" (some uid) nd.ensembles { s2 with to_be_expanded := [] }
  obtain ⟨msN, hmsN, hlenN, hallN⟩ :=
    foldl_create_msgs m "node" (some uid) nd.nodes
      (nd.ensembles.foldl (fun a o => create_object m o "ens" (some uid) a)
        { s2 with to_be_expanded := [] })
  obtain ⟨msT, hmsT, hlenT, hallT⟩ :=
    foldl_create_msgs m "net" (some uid) nd.networks
      (nd.nodes.foldl (fun a o => create_object m o "node" (some uid) a)
        (nd.ensembles.foldl (fun a o => create_object m o "ens" (some uid) a)
          { s2 with to_be_expanded := [] }))
  set st3 := nd.networks.foldl (fun a o => create_object m o "net" (some uid) a)
      (nd.nodes.foldl (fun a o => create_object m o "node" (some uid) a)
        (nd.ensembles.foldl (fun a o => create_object m o "ens" (some uid) a)
          { s2 with to_be_expanded := [] })) with hst3
  have hpar : (if uid = m.root then none else some uid) = some uid := if_neg hroot
  have hexp : expand_network m uid fuel { s2 with to_be_expanded := [] } =
      some (.ok () (setExpanded uid true st3)) := by
    simp only [expand_network, hnet, hconns, hpar, foldConns, hst3]
  have htick : afterTick m uid fuel st = some (setExpanded uid true st3) := by
    rw [afterTick, haec]
    simp only [Option.some_bind, tickRes, update_client, hq2, hexp]
    rw [if_neg hroot]
  have hmsg3 : (setExpanded uid true st3).msgs = st.msgs ++ (msE ++ (msN ++ msT)) := by
    show st3.msgs = st.msgs ++ (msE ++ (msN ++ msT))
    rw [hst3, hmsT, hmsN, hmsE]
    show s2.msgs ++ msE ++ msN ++ msT = st.msgs ++ (msE ++ (msN ++ msT))
    rw [hmsgs2]
    simp [List.append_assoc]
  refine ⟨?_, ?_, ?_, ?_⟩
  · rw [htick]
    simp only [Option.map_some', Option.some_inj]
    rw [setExpanded_config, if_pos rfl]
  · rw [htick]
    simp only [Option.map_some', Option.some_inj, hmsg3, List.drop_left]
    simp [hlenE, hlenN, hlenT, Nat.add_assoc]
  · rw [htick]
    simp only [Option.map_some', Option.some_inj, hmsg3, List.drop_left]
    rw [List.all_eq_true]
    intro x hx
    have hobj : ∃ o ps sz ef, x = OutMsg.objMsg o (m.label o) ps sz "ens" (some uid) ef ∨
        x = OutMsg.objMsg o (m.label o) ps sz "node" (some uid) ef ∨
        x = OutMsg.objMsg o (m.label o) ps sz "net" (some uid) ef := by
      rcases List.mem_append.mp hx with hxe | hxnt
      · obtain ⟨o, ps, sz, ef, hx0⟩ := hallE x hxe
        exact ⟨o, ps, sz, ef, Or.inl hx0⟩
      · rcases List.mem_append.mp hxnt with hxn | hxt
        · obtain ⟨o, ps, sz, ef, hx0⟩ := hallN x hxn
          exact ⟨o, ps, sz, ef, Or.inr (Or.inl hx0)⟩
        · obtain ⟨o, ps, sz, ef, hx0⟩ := hallT x hxt
          exact ⟨o, ps, sz, ef, Or.inr (Or.inr hx0)⟩
    obtain ⟨o, ps, sz, ef, hcase⟩ := hobj
    rcases hcase with hx0 | hx0 | hx0 <;> (subst hx0; simp [isChildObjMsg])
  · rw [htick]
    simp only [Option.map_some', Option.some_inj]
    show st3.to_be_expanded = []
    rw [hst3]
    have f1 := foldl_create_frame m "ens" (some uid) nd.ensembles { s2 with to_be_expanded := [] }
    have f2 := foldl_create_frame m "node" (some uid) nd.nodes
      (nd.ensembles.foldl (fun a o => create_object m o "ens" (some uid) a)
        { s2 with to_be_expanded := [] })
    have f3 := foldl_create_frame m "net" (some uid) nd.networks
      (nd.nodes.foldl (fun a o => create_object m o "node" (some uid) a)
        (nd.ensembles.foldl (fun a o => create_object m o "ens" (some uid) a)
          { s2 with to_be_expanded := [] }))
    rw [f3.2.2.1, f2.2.2.1, f1.2.2.1]

/-- Witness for `collapse_keeps_queue_tick_expands`: expand then collapse
the sub-network `B` of `m3`, then run one tick. -/
theorem collapse_keeps_queue_tick_expands_wit :
    (stW.uids.contains "B" = true ∧ m3.net "B" = some ⟨[], [], ["A"], []⟩ ∧
     ("B" : String) ≠ m3.root ∧ stW.to_be_expanded = []) ∧
    ((afterExpandCollapse m3 "B" stW).map St.to_be_expanded = some ["B"] ∧
     (afterExpandCollapse m3 "B" stW).map (fun s => (s.config "B").expanded) = some false ∧
     (afterExpandCollapse m3 "B" stW).map St.saves = some (stW.saves + 2) ∧
     (afterTick m3 "B" 4 stW).map (fun s => (s.config "B").expanded) = some true ∧
     (afterTick m3 "B" 4 stW).map (fun s => (s.msgs.drop stW.msgs.length).length) = some 1 ∧
     (afterTick m3 "B" 4 stW).map (fun s => (s.msgs.drop stW.msgs.length).all (isChildObjMsg "B"))
       = some true ∧
     (afterTick m3 "B" 4 stW).map St.to_be_expanded = some []) :=
  have T := collapse_keeps_queue_tick_expands m3 "B" ⟨[], [], ["A"], []⟩ stW 4
    rfl rfl rfl (by decide) rfl
  ⟨⟨rfl, rfl, by decide, rfl⟩,
   ⟨T.1, T.2.1, T.2.2.1, T.2.2.2.2.1, T.2.2.2.2.2.1, T.2.2.2.2.2.2.1, T.2.2.2.2.2.2.2⟩⟩

/-!
Round-trip of the persisted layout store.
-/

theorem dropPrefixQ_append (p r : Chars) : dropPrefixQ (p ++ r) p = some r := by
  induction p with
  | nil => cases r <;> rfl
  | cons c t ih => simpa [dropPrefixQ] using ih

theorem dropSuffixQ_append (a s : Chars) : dropSuffixQ (a ++ s) s = some a := by
  unfold dropSuffixQ
  rw [List.reverse_append, dropPrefixQ_append]
  simp

theorem dropPrefixQ_ne_head (c d : Char) (r t : Chars) (h : c ≠ d) :
    dropPrefixQ (c :: r) (d :: t) = none := by
  have hdc : ¬ d = c := fun hh => h hh.symm
  simp [dropPrefixQ, hdc]

theorem dropSuffixQ_ne_last (r t : Chars) (c d : Char)
    (hr : r.getLast? = some c) (ht : t.getLast? = some d) (h : c ≠ d) :
    dropSuffixQ r t = none := by
  have hr' : r.reverse.head? = some c := by rw [List.head?_reverse, hr]
  have ht' : t.reverse.head? = some d := by rw [List.head?_reverse, ht]
  obtain ⟨r1, hr1⟩ : ∃ r1, r.reverse = c :: r1 := by
    cases hrev : r.reverse with
    | nil => rw [hrev] at hr'; simp at hr'
    | cons x xs =>
      rw [hrev] at hr'
      simp only [List.head?_cons, Option.some_inj] at hr'
      exact ⟨xs, by rw [hr']⟩
  obtain ⟨t1, ht1⟩ : ∃ t1, t.reverse = d :: t1 := by
    cases htrev : t.reverse with
    | nil => rw [htrev] at ht'; simp at ht'
    | cons x xs =>
      rw [htrev] at ht'
      simp only [List.head?_cons, Option.some_inj] at ht'
      exact ⟨xs, by rw [ht']⟩
  unfold dropSuffixQ
  rw [hr1, ht1, dropPrefixQ_ne_head c d r1 t1 h]
  rfl

theorem getLast?_append_right (a b : Chars) (h : b ≠ []) :
    (a ++ b).getLast? = b.getLast? :=
  List.getLast?_append_of_ne_nil a h

theorem splitFirst_append (sep : Char) (a b : Chars) (h : sep ∉ a) :
    splitFirst sep (a ++ sep :: b) = some (a, b) := by
  induction a with
  | nil => simp [splitFirst]
  | cons c t ih =>
    have hc : c ≠ sep := fun hh => h (hh ▸ List.mem_cons_self c t)
    have ht : sep ∉ t := fun hh => h (List.mem_cons_of_mem c hh)
    simp [splitFirst, hc, ih ht]

theorem parseLHS_pos (u : Chars) :
    parseLHS ("config[".toList ++ u ++ "].pos".toList) = some (u, Field.pos) := by
  have h1 : "config[".toList ++ u ++ "].pos".toList
      = "config[".toList ++ (u ++ "].pos".toList) := by simp
  have hlast : (u ++ "].pos".toList).getLast? = some 's' := by
    rw [getLast?_append_right u _ (by decide)]; rfl
  have hexp : dropSuffixQ (u ++ "].pos".toList) ".expanded".toList = none :=
    dropSuffixQ_ne_last _ _ 's' 'd' hlast (by rfl) (by decide)
  have hsize : dropSuffixQ (u ++ "].pos".toList) ".size".toList = none :=
    dropSuffixQ_ne_last _ _ 's' 'e' hlast (by rfl) (by decide)
  have hpos : dropSuffixQ (u ++ "].pos".toList) ".pos".toList = some (u ++ "]".toList) := by
    rw [show u ++ "].pos".toList = (u ++ "]".toList) ++ ".pos".toList by simp]
    exact dropSuffixQ_append _ _
  have hbr : dropSuffixQ (u ++ "]".toList) "]".toList = some u := dropSuffixQ_append u _
  unfold parseLHS fieldSuffix
  rw [h1]
  simp only [dropPrefixQ_append, Option.some_bind, hexp, hsize, hpos,
    Option.none_bind, Option.none_orElse', Option.some_orElse', hbr, Option.map_some']

theorem parseLHS_size (u : Chars) :
    parseLHS ("config[".toList ++ u ++ "].size".toList) = some (u, Field.size) := by
  have h1 : "config[".toList ++ u ++ "].size".toList
      = "config[".toList ++ (u ++ "].size".toList) := by simp
  have hlast : (u ++ "].size".toList).getLast? = some 'e' := by
    rw [getLast?_append_right u _ (by decide)]; rfl
  have hexp : dropSuffixQ (u ++ "].size".toList) ".expanded".toList = none :=
    dropSuffixQ_ne_last _ _ 'e' 'd' hlast (by rfl) (by decide)
  have hsize : dropSuffixQ (u ++ "].size".toList) ".size".toList = some (u ++ "]".toList) := by
    rw [show u ++ "].size".toList = (u ++ "]".toList) ++ ".size".toList by simp]
    exact dropSuffixQ_append _ _
  have hbr : dropSuffixQ (u ++ "]".toList) "]".toList = some u := dropSuffixQ_append u _
  unfold parseLHS fieldSuffix
  rw [h1]
  simp only [dropPrefixQ_append, Option.some_bind, hexp, hsize,
    Option.none_bind, Option.none_orElse', Option.some_orElse', hbr, Option.map_some']

theorem parseLHS_expanded (u : Chars) :
    parseLHS ("config[".toList ++ u ++ "].expanded".toList) = some (u, Field.expanded) := by
  have h1 : "config[".toList ++ u ++ "].expanded".toList
      = "config[".toList ++ (u ++ "].expanded".toList) := by simp
  have hexp : dropSuffixQ (u ++ "].expanded".toList) ".expanded".toList
      = some (u ++ "]".toList) := by
    rw [show u ++ "].expanded".toList = (u ++ "]".toList) ++ ".expanded".toList by simp]
    exact dropSuffixQ_append _ _
  have hbr : dropSuffixQ (u ++ "]".toList) "]".toList = some u := dropSuffixQ_append u _
  unfold parseLHS fieldSuffix
  rw [h1]
  simp only [dropPrefixQ_append, Option.some_bind, hexp,
    Option.some_bind, Option.some_orElse', hbr, Option.map_some']

theorem parseVal_cons (c : Char) (r : Chars) :
    parseVal (c :: r) =
      if (c :: r) = "None".toList then some none
      else if c = '(' then
        (r.getLast?).bind (fun cl =>
          if cl = ')' then
            (splitFirst ',' r.dropLast).bind (fun pr =>
              match pr.2 with
              | [] => none
              | c2 :: y => if c2 = ' ' then some (some (pr.1, y)) else none)
          else none)
      else none := rfl

theorem parseVal_render (op : Option (Chars × Chars)) (h : goodPairV op) :
    parseVal (renderPair op) = some op := by
  cases op with
  | none => rfl
  | some p =>
    obtain ⟨x, y⟩ := p
    obtain ⟨⟨hxn, hxc⟩, hyn, hyc⟩ := h
    have hrp : renderPair (some (x, y)) = '(' :: ((x ++ ',' :: ' ' :: y) ++ [')']) := by
      simp [renderPair]
    have hne : ('(' :: ((x ++ ',' :: ' ' :: y) ++ [')'])) ≠ "None".toList := by
      intro hh
      have hNh := congrArg List.head? hh
      simp at hNh
    have hlast : ((x ++ ',' :: ' ' :: y) ++ [')']).getLast? = some ')' := by
      rw [getLast?_append_right _ _ (by decide)]; rfl
    have hsf : splitFirst ',' ((x ++ ',' :: ' ' :: y) ++ [')']).dropLast
        = some (x, ' ' :: y) := by
      rw [List.dropLast_concat]
      exact splitFirst_append ',' x (' ' :: y) hxc
    rw [hrp, parseVal_cons, if_neg hne, if_pos rfl, hlast, Option.some_bind,
       if_pos rfl, hsf, Option.some_bind]
    rfl

theorem parseBool_render (b : Bool) : parseBool (renderBool b) = some b := by
  cases b <;> rfl

theorem parseLine_pos (u : Chars) (v : Option (Chars × Chars))
    (hu : goodUid u) (hv : goodPairV v) :
    parseLine (cfgLine u "pos".toList (renderPair v)) = some (u, FVal.fpos v) := by
  unfold parseLine cfgLine
  have heq : "config[".toList ++ u ++ "].".toList ++ "pos".toList ++ '=' :: renderPair v
      = ("config[".toList ++ u ++ "].pos".toList) ++ '=' :: renderPair v := by simp
  rw [heq, splitFirst_append '=' _ _ (by
    intro hh
    rcases List.mem_append.mp hh with h1 | h2
    · rcases List.mem_append.mp h1 with h3 | h4
      · exact absurd h3 (by decide)
      · exact hu.2 h4
    · exact absurd h2 (by decide))]
  simp only [Option.some_bind, parseLHS_pos, parseVal_render v hv, Option.map_some']

theorem parseLine_size (u : Chars) (v : Option (Chars × Chars))
    (hu : goodUid u) (hv : goodPairV v) :
    parseLine (cfgLine u "size".toList (renderPair v)) = some (u, FVal.fsize v) := by
  unfold parseLine cfgLine
  have heq : "config[".toList ++ u ++ "].".toList ++ "size".toList ++ '=' :: renderPair v
      = ("config[".toList ++ u ++ "].size".toList) ++ '=' :: renderPair v := by simp
  rw [heq, splitFirst_append '=' _ _ (by
    intro hh
    rcases List.mem_append.mp hh with h1 | h2
    · rcases List.mem_append.mp h1 with h3 | h4
      · exact absurd h3 (by decide)
      · exact hu.2 h4
    · exact absurd h2 (by decide))]
  simp only [Option.some_bind, parseLHS_size, parseVal_render v hv, Option.map_some']

theorem parseLine_expanded (u : Chars) (b : Bool) (hu : goodUid u) :
    parseLine (cfgLine u "expanded".toList (renderBool b)) = some (u, FVal.fexp b) := by
  unfold parseLine cfgLine
  have heq : "config[".toList ++ u ++ "].".toList ++ "expanded".toList ++ '=' :: renderBool b
      = ("config[".toList ++ u ++ "].expanded".toList) ++ '=' :: renderBool b := by simp
  rw [heq, splitFirst_append '=' _ _ (by
    intro hh
    rcases List.mem_append.mp hh with h1 | h2
    · rcases List.mem_append.mp h1 with h3 | h4
      · exact absurd h3 (by decide)
      · exact hu.2 h4
    · exact absurd h2 (by decide))]
  simp only [Option.some_bind, parseLHS_expanded, parseBool_render, Option.map_some']

theorem applyLine_new (acc : List (Chars × SEntry)) (u : Chars) (fv : FVal)
    (h : u ∉ acc.map Prod.fst) :
    applyLine acc u fv = acc ++ [(u, setField ⟨none, none, none⟩ fv)] := by
  induction acc with
  | nil => rfl
  | cons p rest ih =>
    obtain ⟨k, e⟩ := p
    have hk : ¬(k = u) := by
      intro hh
      exact h (by simp [hh])
    have hrest : u ∉ rest.map Prod.fst := by
      intro hh
      exact h (by simp [hh])
    simp only [applyLine, if_neg hk, ih hrest, List.cons_append]

theorem applyLine_last (acc : List (Chars × SEntry)) (u : Chars) (e : SEntry)
    (fv : FVal) (h : u ∉ acc.map Prod.fst) :
    applyLine (acc ++ [(u, e)]) u fv = acc ++ [(u, setField e fv)] := by
  induction acc with
  | nil => simp [applyLine]
  | cons p rest ih =>
    obtain ⟨k, e2⟩ := p
    have hk : ¬(k = u) := by
      intro hh
      exact h (by simp [hh])
    have hrest : u ∉ rest.map Prod.fst := by
      intro hh
      exact h (by simp [hh])
    simp only [List.cons_append, applyLine, if_neg hk, List.append_eq, ih hrest]

theorem setField_rebuild_leaf (e : SEntry) (h : e.expanded = none) :
    setField (setField ⟨none, none, none⟩ (.fpos e.pos)) (.fsize e.size) = e := by
  obtain ⟨p, s2, ex⟩ := e
  simp only at h
  subst h
  rfl

theorem setField_rebuild_net (e : SEntry) (b : Bool) (h : e.expanded = some b) :
    setField (setField (setField ⟨none, none, none⟩ (.fpos e.pos)) (.fsize e.size))
      (.fexp b) = e := by
  obtain ⟨p, s2, ex⟩ := e
  simp only at h
  subst h
  rfl

theorem loadsLines_entry (u : Chars) (e : SEntry) (rest : List Chars)
    (acc : List (Chars × SEntry)) (hu : goodUid u) (he : goodEntry e)
    (hacc : u ∉ acc.map Prod.fst) :
    loadsLines (entryLines u e ++ rest) acc = loadsLines rest (acc ++ [(u, e)]) := by
  have hp := parseLine_pos u e.pos hu he.1
  have hs := parseLine_size u e.size hu he.2
  cases hexp : e.expanded with
  | none =>
    have hlines : entryLines u e = [cfgLine u "pos".toList (renderPair e.pos),
        cfgLine u "size".toList (renderPair e.size)] := by
      simp [entryLines, hexp]
    rw [hlines]
    simp only [List.cons_append, List.nil_append, loadsLines, hp, hs, Option.some_bind]
    rw [applyLine_new acc u _ hacc, applyLine_last acc u _ _ hacc,
       setField_rebuild_leaf e hexp]
    rfl
  | some b =>
    have hb := parseLine_expanded u b hu
    have hlines : entryLines u e = [cfgLine u "pos".toList (renderPair e.pos),
        cfgLine u "size".toList (renderPair e.size),
        cfgLine u "expanded".toList (renderBool b)] := by
      simp [entryLines, hexp]
    rw [hlines]
    simp only [List.cons_append, List.nil_append, loadsLines, hp, hs, hb, Option.some_bind]
    rw [applyLine_new acc u _ hacc, applyLine_last acc u _ _ hacc,
       applyLine_last acc u _ _ hacc, setField_rebuild_net e b hexp]
    rfl

theorem loadsLines_store :
    ∀ (store : List (Chars × SEntry)) (acc : List (Chars × SEntry)),
    (∀ p ∈ store, goodUid p.1 ∧ goodEntry p.2) →
    (store.map Prod.fst).Nodup →
    (∀ k ∈ store.map Prod.fst, k ∉ acc.map Prod.fst) →
    loadsLines ((store.map (fun p => entryLines p.1 p.2)).flatten) acc
      = some (acc ++ store) := by
  intro store
  induction store with
  | nil => intro acc _ _ _; simp [loadsLines]
  | cons p rest ih =>
    intro acc hgood hnodup hdisj
    obtain ⟨u, e⟩ := p
    have hmap : List.map Prod.fst ((u, e) :: rest) = u :: List.map Prod.fst rest := by simp
    rw [hmap] at hnodup
    have hnd := List.nodup_cons.mp hnodup
    simp only [List.map_cons, List.flatten_cons]
    rw [loadsLines_entry u e _ acc (hgood (u, e) (by simp)).1 (hgood (u, e) (by simp)).2
        (hdisj u (by simp))]
    rw [ih (acc ++ [(u, e)]) (fun q hq => hgood q (by simp [hq])) hnd.2 ?hdisj2]
    · simp
    case hdisj2 =>
      intro k hk
      simp only [List.map_append, List.map_cons, List.map_nil, List.mem_append,
        List.mem_cons, List.not_mem_nil]
      rintro (hka | hku)
      · exact hdisj k (by simp [hk]) hka
      · rcases hku with hku | hfalse
        · exact hnd.1 (hku ▸ hk)
        · exact hfalse

theorem splitNl_no_nl (l : Chars) (h : '\n' ∉ l) : splitNl l = [l] := by
  induction l with
  | nil => rfl
  | cons c r ih =>
    have hc : ¬(c = '\n') := fun hh => h (hh ▸ List.mem_cons_self c r)
    have hr : '\n' ∉ r := fun hh => h (List.mem_cons_of_mem c hh)
    simp [splitNl, hc, ih hr]

theorem splitNl_append (l rest : Chars) (h : '\n' ∉ l) :
    splitNl (l ++ '\n' :: rest) = l :: splitNl rest := by
  induction l with
  | nil => simp [splitNl]
  | cons c r ih =>
    have hc : ¬(c = '\n') := fun hh => h (hh ▸ List.mem_cons_self c r)
    have hr : '\n' ∉ r := fun hh => h (List.mem_cons_of_mem c hh)
    simp [splitNl, hc, ih hr]

theorem splitNl_joinLines :
    ∀ (ls : List Chars), ls ≠ [] → (∀ l ∈ ls, '\n' ∉ l) →
    splitNl (joinLines ls) = ls := by
  intro ls
  induction ls with
  | nil => intro h _; exact absurd rfl h
  | cons l ls2 ih =>
    intro _ hnl
    cases ls2 with
    | nil => simpa [joinLines] using splitNl_no_nl l (hnl l (by simp))
    | cons l2 ls3 =>
      rw [show joinLines (l :: l2 :: ls3) = l ++ '\n' :: joinLines (l2 :: ls3) from rfl]
      rw [splitNl_append l _ (hnl l (by simp))]
      rw [ih (by simp) (fun x hx => hnl x (by simp [hx]))]

theorem cfgLine_no_nl (u f v : Chars) (hu : '\n' ∉ u) (hf : '\n' ∉ f)
    (hv : '\n' ∉ v) : '\n' ∉ cfgLine u f v := by
  intro hh
  unfold cfgLine at hh
  rcases List.mem_append.mp hh with h1 | h2
  · rcases List.mem_append.mp h1 with h3 | h4
    · rcases List.mem_append.mp h3 with h5 | h6
      · rcases List.mem_append.mp h5 with h7 | h8
        · exact absurd h7 (by decide)
        · exact hu h8
      · exact absurd h6 (by decide)
    · exact hf h4
  · rcases List.mem_cons.mp h2 with h9 | h10
    · exact absurd h9 (by decide)
    · exact hv h10

theorem renderPair_no_nl (v : Option (Chars × Chars)) (hv : goodPairV v) :
    '\n' ∉ renderPair v := by
  cases v with
  | none => decide
  | some p =>
    obtain ⟨x, y⟩ := p
    obtain ⟨⟨hxn, _⟩, hyn, _⟩ := hv
    intro hh
    unfold renderPair at hh
    rcases List.mem_append.mp hh with h1 | h2
    · rcases List.mem_append.mp h1 with h3 | h4
      · rcases List.mem_append.mp h3 with h5 | h6
        · rcases List.mem_append.mp h5 with h7 | h8
          · exact absurd h7 (by decide)
          · exact hxn h8
        · exact absurd h6 (by decide)
      · exact hyn h4
    · exact absurd h2 (by decide)

theorem renderBool_no_nl (b : Bool) : '\n' ∉ renderBool b := by
  cases b <;> decide

theorem entryLines_no_nl (u : Chars) (e : SEntry) (hu : goodUid u)
    (he : goodEntry e) : ∀ l ∈ entryLines u e, '\n' ∉ l := by
  intro l hl
  cases hexp : e.expanded with
  | none =>
    rw [show entryLines u e = [cfgLine u "pos".toList (renderPair e.pos),
        cfgLine u "size".toList (renderPair e.size)] from by simp [entryLines, hexp]] at hl
    rcases List.mem_cons.mp hl with h1 | h2
    · exact h1 ▸ cfgLine_no_nl u _ _ hu.1 (by decide) (renderPair_no_nl e.pos he.1)
    · rcases List.mem_cons.mp h2 with h3 | h4
      · exact h3 ▸ cfgLine_no_nl u _ _ hu.1 (by decide) (renderPair_no_nl e.size he.2)
      · exact absurd h4 (by simp)
  | some b =>
    rw [show entryLines u e = [cfgLine u "pos".toList (renderPair e.pos),
        cfgLine u "size".toList (renderPair e.size),
        cfgLine u "expanded".toList (renderBool b)] from by simp [entryLines, hexp]] at hl
    rcases List.mem_cons.mp hl with h1 | h2
    · exact h1 ▸ cfgLine_no_nl u _ _ hu.1 (by decide) (renderPair_no_nl e.pos he.1)
    · rcases List.mem_cons.mp h2 with h3 | h4
      · exact h3 ▸ cfgLine_no_nl u _ _ hu.1 (by decide) (renderPair_no_nl e.size he.2)
      · rcases List.mem_cons.mp h4 with h5 | h6
        · exact h5 ▸ cfgLine_no_nl u _ _ hu.1 (by decide) (renderBool_no_nl b)
        · exact absurd h6 (by simp)

theorem cfgLine_ne_nil (u f v : Chars) : cfgLine u f v ≠ [] := by
  simp [cfgLine]

theorem entryLines_head (u : Chars) (e : SEntry) :
    ∃ t, entryLines u e = cfgLine u "pos".toList (renderPair e.pos) :: t := by
  cases hexp : e.expanded <;> simp [entryLines, hexp]

theorem joinLines_ne_nil (l : Chars) (ls : List Chars) (h : l ≠ []) :
    joinLines (l :: ls) ≠ [] := by
  cases ls with
  | nil => simpa [joinLines] using h
  | cons l2 ls3 =>
    rw [show joinLines (l :: l2 :: ls3) = l ++ '\n' :: joinLines (l2 :: ls3) from rfl]
    simp

/-- C7 (confirmed): deserializing the serialized text of a well-formed
layout store reconstructs the store exactly:
`loads (dumps store) = some store` whenever the store's uids are distinct,
uid-sorted, and printable (no newline or equals sign), and the stored
value strings are printable (no newline or comma — true of every Python
float repr).  Coordinate values are modelled by their printed character
strings, which is faithful because Python 2.7 float repr is injective and
`eval`-invertible. -/
theorem loads_dumps_roundtrip (store : List (Chars × SEntry))
    (h : WFStore store) : loads (dumps store) = some store := by
  obtain ⟨hnodup, hgood, hsorted⟩ := h
  cases store with
  | nil => rfl
  | cons p rest =>
    obtain ⟨u, e⟩ := p
    obtain ⟨t, ht⟩ := entryLines_head u e
    have hlines_nl : ∀ l ∈ (((u, e) :: rest).map (fun q => entryLines q.1 q.2)).flatten,
        '\n' ∉ l := by
      intro l hl
      rw [List.mem_flatten] at hl
      obtain ⟨sub, hsub, hlsub⟩ := hl
      rw [List.mem_map] at hsub
      obtain ⟨q, hq, hqeq⟩ := hsub
      rw [← hqeq] at hlsub
      exact entryLines_no_nl q.1 q.2 (hgood q hq).1 (hgood q hq).2 l hlsub
    have hflat : (((u, e) :: rest).map (fun q => entryLines q.1 q.2)).flatten
        = cfgLine u "pos".toList (renderPair e.pos)
            :: (t ++ (rest.map (fun q => entryLines q.1 q.2)).flatten) := by
      simp only [List.map_cons, List.flatten_cons, ht, List.cons_append]
    have htext : joinLines ((((u, e) :: rest).map (fun q => entryLines q.1 q.2)).flatten) ≠ [] := by
      rw [hflat]
      exact joinLines_ne_nil _ _ (cfgLine_ne_nil u _ _)
    unfold loads dumps
    rw [if_neg htext]
    rw [splitNl_joinLines _ (by rw [hflat]; simp) hlines_nl]
    exact loadsLines_store ((u, e) :: rest) [] hgood hnodup (by simp)

/-- Witness for `loads_dumps_roundtrip`. -/
theorem loads_dumps_roundtrip_wit :
    WFStore storeW ∧ loads (dumps storeW) = some storeW :=
  ⟨by decide, loads_dumps_roundtrip storeW (by decide)⟩

end NengoViz
